import Mathlib

/-!
Verification development for the `whare` CLI update engine
(`packages/cli/src/index.ts`).

Texts (file contents, lines, keys) are modelled as `List Char` (`Str`):
JS strings are finite character sequences and every operation the source
performs on them (split, trim, startsWith, includes, the regex replaces
used here) is modelled by an executable recursive function below.  JSON
values are modelled by the inductive `JsonValue`; JS `undefined` is
modelled as `Option.none` at the positions where the source can produce it
(top-level merge results, `hasValueChanged` arguments, absent fields).
JS objects are ordered key/value lists with JS property-write semantics
(`setKV`: update in place when the key exists, append otherwise), matching
JS insertion-order enumeration for the non-integer-like keys manifests use.
-/

set_option maxHeartbeats 1000000

/-- Character list standing in for a JS string. -/
abbrev Str := List Char

/-- Shorthand turning a Lean string literal into the `Str` model. -/
def S (s : String) : Str := s.data

/-- JSON-compatible values (numbers modelled as integers; the claims under
study never depend on float-specific behaviour). -/
inductive JsonValue where
  | null : JsonValue
  | bool : Bool → JsonValue
  | num : Int → JsonValue
  | str : Str → JsonValue
  | arr : List JsonValue → JsonValue
  | obj : List (Str × JsonValue) → JsonValue

/-- An ordered JS object: key/value list in property insertion order. -/
abbrev JsObj := List (Str × JsonValue)

/-- A JS object whose values may be `undefined` (`none`), as produced by
assignments such as `result[key] = currentJson[key]` with an absent key. -/
abbrev TopObj := List (Str × Option JsonValue)

/-- First-match association lookup: the value a JS property read returns
(JS objects hold each key once). -/
def lookupKV {α : Type} : List (Str × α) → Str → Option α
  | [], _ => none
  | (k', v) :: rest, k => if k' = k then some v else lookupKV rest k

/-- Whether the object has the key (JS `key in obj`). -/
def hasKeyB {α : Type} (o : List (Str × α)) (k : Str) : Bool :=
  o.any (fun p => p.1 = k)

/-- Replacement of one entry during an in-place property write. -/
def replaceEntry {α : Type} (k : Str) (v : α) (p : Str × α) : Str × α :=
  if p.1 = k then (k, v) else p

/-- JS property write `o[k] = v`: update in place when present, else append. -/
def setKV {α : Type} (o : List (Str × α)) (k : Str) (v : α) : List (Str × α) :=
  if hasKeyB o k then o.map (replaceEntry k v)
  else o ++ [(k, v)]

/-- JS `delete o[k]`. -/
def eraseKV {α : Type} (o : List (Str × α)) (k : Str) : List (Str × α) :=
  o.filter (fun p => decide (p.1 ≠ k))

/-- Decimal digits, fuel-indexed so that the kernel can evaluate it (the
fuel never runs out when it starts at the number itself). -/
def natDigitsAux : Nat → Nat → Str
  | 0, n => [Nat.digitChar n]
  | fuel + 1, n =>
      if n < 10 then [Nat.digitChar n]
      else natDigitsAux fuel (n / 10) ++ [Nat.digitChar (n % 10)]

/-- Decimal digits of a natural number, most significant first. -/
def natDigits (n : Nat) : Str := natDigitsAux n n

/-- Decimal rendering of an integer (JS number-to-string for integers). -/
def intStr : Int → Str
  | Int.ofNat n => natDigits n
  | Int.negSucc n => '-' :: natDigits (n + 1)

/-- JSON escape of one character, following `JSON.stringify` for the
characters that can occur in the model. -/
def escapeChar (c : Char) : Str :=
  if c = '"' then ['\\', '"']
  else if c = '\\' then ['\\', '\\']
  else if c = '\n' then ['\\', 'n']
  else if c = '\t' then ['\\', 't']
  else if c = '\r' then ['\\', 'r']
  else if c = '\x08' then ['\\', 'b']
  else if c = '\x0c' then ['\\', 'f']
  else if c.toNat < 32 then
    ['\\', 'u', '0', '0', Nat.digitChar (c.toNat / 16), Nat.digitChar (c.toNat % 16)]
  else [c]

/-- JSON escape of a string body. -/
def escapeStr : Str → Str
  | [] => []
  | c :: rest => escapeChar c ++ escapeStr rest

/-- A JSON string literal: quotes around the escaped body. -/
def quoteStr (s : Str) : Str := '"' :: escapeStr s ++ ['"']

/-- Comma-join of already serialized parts. -/
def commaJoin : List Str → Str
  | [] => []
  | [x] => x
  | x :: y :: rest => x ++ ',' :: commaJoin (y :: rest)

/-- Join serialized member lines with `",\n"`. -/
def nlCommaJoin : List Str → Str
  | [] => []
  | [x] => x
  | x :: y :: rest => x ++ ',' :: '\n' :: nlCommaJoin (y :: rest)

/-- `n` spaces of indentation. -/
def sp (n : Nat) : Str := List.replicate n ' '

mutual
/-- `JSON.stringify(v)` with no indentation (compact form), as used by
`hasValueChanged`. -/
def stringifyC : JsonValue → Str
  | JsonValue.null => S "null"
  | JsonValue.bool true => S "true"
  | JsonValue.bool false => S "false"
  | JsonValue.num n => intStr n
  | JsonValue.str s => quoteStr s
  | JsonValue.arr xs => '[' :: commaJoin (stringifyCArr xs) ++ [']']
  | JsonValue.obj kvs => '\x7b' :: commaJoin (stringifyCObj kvs) ++ ['\x7d']
  termination_by structural v => v

/-- Compact serializations of the members of an array. -/
def stringifyCArr : List JsonValue → List Str
  | [] => []
  | x :: xs => stringifyC x :: stringifyCArr xs
  termination_by structural xs => xs

/-- Compact `"key":value` parts of an object. -/
def stringifyCObj : List (Str × JsonValue) → List Str
  | [] => []
  | (k, v) :: kvs => (quoteStr k ++ ':' :: stringifyC v) :: stringifyCObj kvs
  termination_by structural kvs => kvs
end

mutual
/-- `JSON.stringify(v, null, 2)`: the 2-space indented serialization.  The
`ind` argument is the indentation of the value's own closing bracket; the
value's members are written at `ind + 2`. -/
def stringifyP : Nat → JsonValue → Str
  | _, JsonValue.null => S "null"
  | _, JsonValue.bool true => S "true"
  | _, JsonValue.bool false => S "false"
  | _, JsonValue.num n => intStr n
  | _, JsonValue.str s => quoteStr s
  | _, JsonValue.arr [] => ['[', ']']
  | ind, JsonValue.arr (x :: xs) =>
      '[' :: '\n' :: nlCommaJoin (stringifyPArr (ind + 2) (x :: xs)) ++
        '\n' :: sp ind ++ [']']
  | _, JsonValue.obj [] => ['\x7b', '\x7d']
  | ind, JsonValue.obj (kv :: kvs) =>
      '\x7b' :: '\n' :: nlCommaJoin (stringifyPObj (ind + 2) (kv :: kvs)) ++
        '\n' :: sp ind ++ ['\x7d']
  termination_by structural _ v => v

/-- Indented serializations of array members (one per line). -/
def stringifyPArr : Nat → List JsonValue → List Str
  | _, [] => []
  | ind, x :: xs => (sp ind ++ stringifyP ind x) :: stringifyPArr ind xs
  termination_by structural _ xs => xs

/-- Indented `"key": value` lines of an object. -/
def stringifyPObj : Nat → List (Str × JsonValue) → List Str
  | _, [] => []
  | ind, (k, v) :: kvs =>
      (sp ind ++ quoteStr k ++ ':' :: ' ' :: stringifyP ind v) ::
        stringifyPObj ind kvs
  termination_by structural _ kvs => kvs
end

/-- `JSON.stringify` at the top level of a JS object whose properties may
be `undefined`: undefined-valued properties are omitted. -/
def dropUndefined (tv : TopObj) : JsObj :=
  tv.filterMap (fun p => p.2.map (fun v => (p.1, v)))

/-- `JSON.stringify(x)` where `x : unknown` may be `undefined`: JS returns
the (JS) value `undefined` in that case, modelled as `none`. -/
def jsonStringifyTop : Option JsonValue → Option Str
  | none => none
  | some v => some (stringifyC v)

/-- `hasValueChanged` (source lines 252-254):
`JSON.stringify(current) !== JSON.stringify(incoming)`. -/
def hasValueChanged (current incoming : Option JsonValue) : Bool :=
  decide (jsonStringifyTop current ≠ jsonStringifyTop incoming)

example : stringifyC (JsonValue.obj [(S "a", JsonValue.num 1), (S "b", JsonValue.arr [JsonValue.num 2, JsonValue.str (S "x")])]) = S "\x7b\"a\":1,\"b\":[2,\"x\"]\x7d" := by decide

example : stringifyP 0 (JsonValue.obj [(S "a", JsonValue.obj [(S "b", JsonValue.num 1)])]) = S "\x7b\n  \"a\": \x7b\n    \"b\": 1\n  \x7d\n\x7d" := by decide

example : hasValueChanged (some (JsonValue.str (S "123"))) (some (JsonValue.num 123)) = true := by decide

example : hasValueChanged (some JsonValue.null) none = true := by decide

/-- Boolean prefix test on character lists (JS `String.startsWith`). -/
def prefB : Str → Str → Bool
  | [], _ => true
  | _ :: _, [] => false
  | a :: p, b :: s => a = b && prefB p s

/-- Boolean substring test (JS `String.includes`). -/
def subB (p : Str) : Str → Bool
  | [] => prefB p []
  | c :: s => prefB p (c :: s) || subB p s

/-- JS whitespace test for `String.trim` (ASCII cases). -/
def isSpaceB (c : Char) : Bool :=
  c = ' ' || c = '\t' || c = '\n' || c = '\r'

/-- JS `String.trim`. -/
def trimS (s : Str) : Str :=
  ((s.dropWhile isSpaceB).reverse.dropWhile isSpaceB).reverse

/-- JS `String.split(sep)` for a one-character separator. -/
def splitOnC (sep : Char) : Str → List Str
  | [] => [[]]
  | c :: rest =>
      if c = sep then [] :: splitOnC sep rest
      else
        match splitOnC sep rest with
        | [] => [[c]]
        | r :: rs => (c :: r) :: rs

/-- JS `Array.join("\n")`. -/
def joinNl : List Str → Str
  | [] => []
  | [l] => l
  | l :: l2 :: rest => l ++ '\n' :: joinNl (l2 :: rest)

/-- Remove the first comma of a string, if any. -/
def removeFirstComma : Str → Str
  | [] => []
  | c :: rest => if c = ',' then rest else c :: removeFirstComma rest

/-- The regex replace `.replace(/,(?!.*,)/, "")`: remove the last comma of
the line (the one not followed by any other comma), if any. -/
def removeLastComma (s : Str) : Str :=
  (removeFirstComma s.reverse).reverse

/-- One attempted match of `/"TAG([^"]+)"/` at the head of the string,
yielding the text rewritten to `"$1"` when it matches. -/
def capturedAt (tag : Str) (rest : Str) : Str :=
  (rest.drop tag.length).takeWhile (fun c => !(c = '"'))

def matchMarkerAt (tag : Str) : Str → Option Str
  | c :: rest =>
      if c = '"' then
        if prefB tag rest then
          if !(capturedAt tag rest).isEmpty &&
              prefB ['"'] ((rest.drop tag.length).drop (capturedAt tag rest).length) then
            some ('"' :: capturedAt tag rest ++
              '"' :: (rest.drop tag.length).drop ((capturedAt tag rest).length + 1))
          else none
        else none
      else none
  | [] => none

/-- The regex replace `.replace(/"TAG([^"]+)"/, '"$1"')`: rewrite the
leftmost marker occurrence, keeping the quotes but dropping the tag. -/
def replaceMarkerKey (tag : Str) : Str → Str
  | [] => []
  | c :: rest =>
      match matchMarkerAt tag (c :: rest) with
      | some r => r
      | none => c :: replaceMarkerKey tag rest

/-- Whether a trimmed line is a "real" (non-marker, nonempty) line for the
look-ahead in `transformToGitConflicts` (source lines 286-302).  Note the
source does not exclude `"conf-start` lines here. -/
def isRealLine (t : Str) : Bool :=
  !t.isEmpty && !prefB (S "\"conf-end") t && !prefB (S "\"conf-mid") t &&
    !prefB (S "\"tmpl::") t && !prefB (S "\"curr::") t

/-- `findNextNonConflictLine`: first following line whose trimmed text is
real; returns the trimmed text. -/
def findNextNonConflictLine : List Str → Option Str
  | [] => none
  | l :: rest =>
      let t := trimS l
      if isRealLine t then some t else findNextNonConflictLine rest

/-- The loop body of `transformToGitConflicts` (source lines 304-356),
processing the remaining lines with the current `inConflict` flag.  The
look-ahead from index `i + 1` in the source is the look-ahead into the
tail here. -/
def processLines : Bool → List Str → List Str
  | _, [] => []
  | inConflict, line :: rest =>
      let trimmed := trimS line
      if subB (S "\"conf-start::") line then
        S "<<<<<<< Local Package" :: processLines true rest
      else if subB (S "\"conf-mid::") line then
        S "=======" :: processLines inConflict rest
      else if subB (S "\"conf-end::") line then
        S ">>>>>>> Template" :: processLines false rest
      else if inConflict && prefB (S "\"tmpl::") trimmed then
        let needsComma := (findNextNonConflictLine rest).elim false (fun t => prefB ['"'] t)
        let processedLine := removeLastComma (replaceMarkerKey (S "tmpl::") line)
        (processedLine ++ (if needsComma then [','] else []) ++ S " // From template") ::
          processLines inConflict rest
      else if inConflict && prefB (S "\"curr::") trimmed then
        let needsComma := (findNextNonConflictLine rest).elim false (fun t => prefB ['"'] t)
        let processedLine := removeLastComma (replaceMarkerKey (S "curr::") line)
        (processedLine ++ (if needsComma then [','] else [])) ::
          processLines inConflict rest
      else line :: processLines inConflict rest

/-- `transformToGitConflicts` (source lines 279-359): split into lines,
rewrite marker lines into git-conflict markup, join back. -/
def transformToGitConflicts (jsonString : Str) : Str :=
  joinNl (processLines false (splitOnC '\n' jsonString))

/-- The five sentinel keys of one conflict (source lines 257-263).  The
source field named `end` is called `endM` here (`end` is a Lean keyword). -/
structure ConflictMarker where
  start : Str
  mid : Str
  endM : Str
  template : Str
  current : Str

/-- JS `counter.toString().padStart(2, "0")`. -/
def padStart2 (s : Str) : Str :=
  if s.length < 2 then List.replicate (2 - s.length) '0' ++ s else s

/-- `createConflictMarkers` (source lines 265-277). -/
def createConflictMarkers (counter : Nat) (originalKey : Str) : ConflictMarker :=
  let id := padStart2 (natDigits counter)
  { start := S "conf-start::" ++ id
    mid := S "conf-mid::" ++ id
    endM := S "conf-end::" ++ id
    template := S "tmpl::" ++ originalKey
    current := S "curr::" ++ originalKey }

/-- One conflict emitted during a merge (spec data model `ConflictRecord`);
recorded each time the merge loop calls `createConflictMarkers`. -/
structure ConflictRecord where
  id : Nat
  key : Str
  currentValue : JsonValue
  incomingValue : JsonValue

/-- State of the sub-object merge loop: the object under construction, the
shared conflict counter, and the conflicts emitted so far. -/
structure SubMergeState where
  obj : JsObj
  counter : Nat
  recs : List ConflictRecord

/-- One iteration of the inner merge loop (source lines 388-408) on the
incoming sub-entry `kv`. -/
def mergeSubStep (st : SubMergeState) (kv : Str × JsonValue) : SubMergeState :=
  if !hasKeyB st.obj kv.1 then
    { st with obj := setKV st.obj kv.1 kv.2 }
  else if hasValueChanged (lookupKV st.obj kv.1) (some kv.2) then
    let markers := createConflictMarkers st.counter kv.1
    let originalValue := (lookupKV st.obj kv.1).getD JsonValue.null
    let o1 := eraseKV st.obj kv.1
    let o2 := setKV o1 markers.start (JsonValue.str [])
    let o3 := setKV o2 markers.current originalValue
    let o4 := setKV o3 markers.mid (JsonValue.str [])
    let o5 := setKV o4 markers.template kv.2
    let o6 := setKV o5 markers.endM (JsonValue.str [])
    { obj := o6
      counter := st.counter + 1
      recs := st.recs ++ [⟨st.counter, kv.1, originalValue, kv.2⟩] }
  else st

/-- The inner merge loop over all incoming sub-entries (source lines
385-410), starting from the spread of the current value. -/
def mergeSubObject (initial : JsObj) (incoming : JsObj) (counter : Nat) : SubMergeState :=
  incoming.foldl mergeSubStep { obj := initial, counter := counter, recs := [] }

/-- `PACKAGE_JSON_PROTECTED_FIELDS` (source lines 231-241). -/
def PACKAGE_JSON_PROTECTED_FIELDS : List Str :=
  [S "name", S "version", S "private", S "description", S "author",
   S "license", S "repository", S "bugs", S "homepage"]

/-- `PACKAGE_JSON_MERGE_FIELDS` (source lines 244-249). -/
def PACKAGE_JSON_MERGE_FIELDS : List Str :=
  [S "dependencies", S "devDependencies", S "peerDependencies", S "scripts"]

/-- JS `typeof v === "object"` (true for null, arrays and objects). -/
def typeofIsObject : JsonValue → Bool
  | JsonValue.null => true
  | JsonValue.arr _ => true
  | JsonValue.obj _ => true
  | _ => false

/-- JS `v !== null`. -/
def isNullB : JsonValue → Bool
  | JsonValue.null => true
  | _ => false

/-- Index/value pairs starting at `i`, for spreading strings and arrays. -/
def enumFrom {α : Type} : Nat → List α → List (Nat × α)
  | _, [] => []
  | i, x :: xs => (i, x) :: enumFrom (i + 1) xs

/-- JS `Object.entries(v)` for the values the merge can reach (objects keep
their entries; arrays enumerate indices; others have none). -/
def entriesOf : JsonValue → JsObj
  | JsonValue.obj kvs => kvs
  | JsonValue.arr xs => (enumFrom 0 xs).map (fun p => (natDigits p.1, p.2))
  | _ => []

/-- JS object spread `{ ...x }` where `x` may be `undefined` or any value:
objects copy entries, arrays and strings enumerate indices, all other
values contribute nothing. -/
def spreadToObj : Option JsonValue → JsObj
  | some (JsonValue.obj kvs) => kvs
  | some (JsonValue.arr xs) => (enumFrom 0 xs).map (fun p => (natDigits p.1, p.2))
  | some (JsonValue.str s) => (enumFrom 0 s).map (fun p => (natDigits p.1, JsonValue.str [p.2]))
  | _ => []

/-- State of the top-level merge loop over incoming fields. -/
structure TopMergeState where
  result : TopObj
  counter : Nat
  recs : List ConflictRecord

/-- One iteration of the top-level merge loop (source lines 372-415) on the
incoming field `kv`, with `cur` the parsed current document. -/
def mergeTopStep (cur : JsObj) (st : TopMergeState) (kv : Str × JsonValue) : TopMergeState :=
  if PACKAGE_JSON_PROTECTED_FIELDS.elem kv.1 then
    { st with result := setKV st.result kv.1 (lookupKV cur kv.1) }
  else if PACKAGE_JSON_MERGE_FIELDS.elem kv.1 && typeofIsObject kv.2 &&
      !isNullB kv.2 then
    let sub := mergeSubObject (spreadToObj (lookupKV cur kv.1)) (entriesOf kv.2) st.counter
    { result := setKV st.result kv.1 (some (JsonValue.obj sub.obj))
      counter := sub.counter
      recs := st.recs ++ sub.recs }
  else
    { st with result := setKV st.result kv.1 (some kv.2) }

/-- The whole in-memory merge of two parsed manifests (source lines
366-415): start from a copy of the current document, fold the incoming
fields. -/
def mergeDocs (cur inc : JsObj) : TopMergeState :=
  inc.foldl (mergeTopStep cur) ⟨cur.map (fun p => (p.1, some p.2)), 0, []⟩

/-- Serialization half of `packageJsonHandler.merge` (source lines
417-421): stringify the merged object with 2-space indent, then rewrite
the markers into git-conflict markup. -/
def mergePackageJsonDocs (cur inc : JsObj) : Str :=
  transformToGitConflicts (stringifyP 0 (JsonValue.obj (dropUndefined (mergeDocs cur inc).result)))

/-- `packageJsonHandler.merge` (source lines 364-428), parameterized by
the JSON parser (`JSON.parse`, an external runtime facility; `none` models
a parse exception).  Returns the produced text and the warnings logged;
the `catch` branch returns the current text unchanged. -/
def packageJsonMerge (parse : Str → Option JsObj) (current incoming : Str) :
    Str × List Str :=
  match parse current, parse incoming with
  | some cur, some inc => (mergePackageJsonDocs cur inc, [])
  | _, _ =>
      (current, [S "Warning: Failed to merge package.json, using current version"])

/-- `path.basename` for the slash-separated paths the model uses. -/
def baseName (p : Str) : Str :=
  (splitOnC '/' p).getLastD []

/-- `packageJsonHandler.shouldHandle` (source lines 362-363). -/
def shouldHandlePackageJson (filePath : Str) : Bool :=
  decide (baseName filePath = S "package.json")

/-- `handleSpecialFile` (source lines 434-450): the registry holds the one
package.json handler; a falsy current content (absent file or empty
string) short-circuits to the incoming content. -/
def handleSpecialFile (parse : Str → Option JsObj) (filePath : Str)
    (currentContent : Option Str) (incomingContent : Str) : Str × List Str :=
  if shouldHandlePackageJson filePath then
    if currentContent = none ∨ currentContent = some [] then (incomingContent, [])
    else packageJsonMerge parse (currentContent.getD []) incomingContent
  else (incomingContent, [])

/-! ## Value kinds and the head character of a serialization (for C8) -/

/-- The kind (JS-level type) of a possibly-undefined JSON value. -/
def jsKind : Option JsonValue → Nat
  | none => 0
  | some JsonValue.null => 1
  | some (JsonValue.bool _) => 2
  | some (JsonValue.num _) => 3
  | some (JsonValue.str _) => 4
  | some (JsonValue.arr _) => 5
  | some (JsonValue.obj _) => 6

/-- Kind read off the first character of a compact serialization. -/
def headKindChar (c : Char) : Nat :=
  if c = 'n' then 1
  else if c = 't' then 2
  else if c = 'f' then 2
  else if c = '"' then 4
  else if c = '[' then 5
  else if c = '\x7b' then 6
  else if c.isDigit || c = '-' then 3
  else 0

/-- Kind of a serialization, from its head. -/
def headKind : Str → Nat
  | [] => 0
  | c :: _ => headKindChar c

theorem digitChar_isDigit {n : Nat} (h : n < 10) : (Nat.digitChar n).isDigit = true := by
  interval_cases n <;> decide

theorem natDigitsAux_head (fuel n : Nat) (hf : n ≤ fuel) :
    ∃ c rest, natDigitsAux fuel n = c :: rest ∧ c.isDigit = true := by
  induction fuel generalizing n with
  | zero =>
      have hn : n = 0 := Nat.le_zero.mp hf
      subst hn
      exact ⟨'0', [], rfl, by decide⟩
  | succ fuel ih =>
      by_cases h10 : n < 10
      · exact ⟨Nat.digitChar n, [], by simp [natDigitsAux, h10], digitChar_isDigit h10⟩
      · have hdiv : n / 10 ≤ fuel := by
          have := Nat.div_lt_self (by omega : 0 < n) (by omega : 1 < 10)
          omega
        obtain ⟨c, rest, heq, hdig⟩ := ih (n / 10) hdiv
        refine ⟨c, rest ++ [Nat.digitChar (n % 10)], ?_, hdig⟩
        simp [natDigitsAux, h10, heq]

theorem headKindChar_of_isDigit {c : Char} (h : c.isDigit = true) : headKindChar c = 3 := by
  have hn : c ≠ 'n' := by rintro rfl; simp at h
  have ht : c ≠ 't' := by rintro rfl; simp at h
  have hf : c ≠ 'f' := by rintro rfl; simp at h
  have hq : c ≠ '"' := by rintro rfl; simp at h
  have hb : c ≠ '[' := by rintro rfl; simp at h
  have hbr : c ≠ '\x7b' := by rintro rfl; simp at h
  simp [headKindChar, hn, ht, hf, hq, hb, hbr, h]

theorem headKind_stringifyC (v : JsonValue) : headKind (stringifyC v) = jsKind (some v) := by
  cases v with
  | null => decide
  | bool b => cases b <;> decide
  | num n =>
      cases n with
      | ofNat m =>
          obtain ⟨c, rest, heq, hdig⟩ := natDigitsAux_head m m (Nat.le_refl m)
          simp [stringifyC, intStr, natDigits, heq, headKind, jsKind,
            headKindChar_of_isDigit hdig]
      | negSucc m => simp [stringifyC, intStr, headKind, jsKind]; decide
  | str s => simp [stringifyC, quoteStr, headKind, jsKind]; decide
  | arr xs => simp [stringifyC, headKind, jsKind]; decide
  | obj kvs => simp [stringifyC, headKind, jsKind]; decide

/-- C8: `hasValueChanged(a, a)` is false for every JSON-compatible value
(including `undefined`), it is true whenever the two arguments have
different kinds (e.g. the string "123" versus the number 123), and it is
true between `null` and absent (`undefined`). -/
theorem hasValueChanged_spec :
    (∀ a : Option JsonValue, hasValueChanged a a = false) ∧
    (∀ x y : Option JsonValue, jsKind x ≠ jsKind y → hasValueChanged x y = true) ∧
    hasValueChanged (some JsonValue.null) none = true ∧
    hasValueChanged none (some JsonValue.null) = true := by
  refine ⟨?_, ?_, by decide, by decide⟩
  · intro a
    simp [hasValueChanged]
  · intro x y h
    have : jsonStringifyTop x ≠ jsonStringifyTop y := by
      intro heq
      apply h
      cases x with
      | none =>
          cases y with
          | none => rfl
          | some w => simp [jsonStringifyTop] at heq
      | some v =>
          cases y with
          | none => simp [jsonStringifyTop] at heq
          | some w =>
              simp only [jsonStringifyTop, Option.some.injEq] at heq
              rw [← headKind_stringifyC v, ← headKind_stringifyC w, heq]
    simp [hasValueChanged, this]

/-- Witness for C8 at the spec's own example: string "123" vs number 123. -/
theorem hasValueChanged_spec_witness :
    jsKind (some (JsonValue.str (S "123"))) ≠ jsKind (some (JsonValue.num 123)) ∧
    hasValueChanged (some (JsonValue.str (S "123"))) (some (JsonValue.num 123)) = true :=
  ⟨by decide, hasValueChanged_spec.2.1 _ _ (by decide)⟩

/-- C9: an existing destination file whose content is the empty string is
treated by `handleSpecialFile` exactly like an absent file: the incoming
content is returned unchanged (no merge, nothing preserved), for every
path, including a `package.json` path. -/
theorem handleSpecialFile_empty_current (parse : Str → Option JsObj)
    (filePath incomingContent : Str) :
    handleSpecialFile parse filePath (some []) incomingContent = (incomingContent, []) ∧
    handleSpecialFile parse filePath (some []) incomingContent
      = handleSpecialFile parse filePath none incomingContent := by
  unfold handleSpecialFile
  by_cases h : shouldHandlePackageJson filePath = true <;> simp [h]

/-- C6: when parsing either input fails, `packageJsonHandler.merge` returns
the current document's text unchanged (the `catch` branch; failure is only
reported through the logger). -/
theorem packageJsonMerge_parse_failure (parse : Str → Option JsObj)
    (current incoming : Str)
    (h : parse current = none ∨ parse incoming = none) :
    (packageJsonMerge parse current incoming).1 = current := by
  cases hc : parse current with
  | none => simp [packageJsonMerge, hc]
  | some cur =>
      cases hi : parse incoming with
      | none => simp [packageJsonMerge, hc, hi]
      | some inc =>
          rcases h with h | h
          · rw [hc] at h; cases h
          · rw [hi] at h; cases h

/-- Witness for C6: a parser that rejects everything. -/
theorem packageJsonMerge_parse_failure_witness :
    ((fun _ : Str => (none : Option JsObj)) (S "nonsense") = none ∨
      (fun _ : Str => (none : Option JsObj)) (S "other") = none) ∧
    (packageJsonMerge (fun _ => none) (S "nonsense") (S "other")).1 = S "nonsense" :=
  ⟨Or.inl rfl, packageJsonMerge_parse_failure _ _ _ (Or.inl rfl)⟩

/-! ## Lookup through the undefined-dropping serialization (for C4, C10) -/

/-- Lookup of the value the serialized merge result shows for a key: the
first defined value among the key's entries. -/
def lookupDU : TopObj → Str → Option JsonValue
  | [], _ => none
  | (k', v) :: rest, k =>
      if k' = k then
        match v with
        | some w => some w
        | none => lookupDU rest k
      else lookupDU rest k

theorem lookupKV_dropUndefined (res : TopObj) (k : Str) :
    lookupKV (dropUndefined res) k = lookupDU res k := by
  induction res with
  | nil => rfl
  | cons p rest ih =>
      obtain ⟨a, b⟩ := p
      by_cases ha : a = k
      · subst ha
        cases b with
        | none => simpa [dropUndefined, lookupDU] using ih
        | some w => simp [dropUndefined, lookupDU, lookupKV]
      · cases b with
        | none => simpa [dropUndefined, lookupDU, ha] using ih
        | some w => simpa [dropUndefined, lookupDU, lookupKV, ha] using ih


theorem replaceEntry_self {α : Type} (k : Str) (v : α) (b : α) :
    replaceEntry k v (k, b) = (k, v) := by simp [replaceEntry]

theorem replaceEntry_other {α : Type} {k a : Str} (v : α) (b : α) (h : a ≠ k) :
    replaceEntry k v (a, b) = (a, b) := by simp [replaceEntry, h]

theorem lookupDU_cons_ne {a : Str} {b : Option JsonValue} {rest : TopObj} {k : Str}
    (h : a ≠ k) : lookupDU ((a, b) :: rest) k = lookupDU rest k := by
  simp [lookupDU, h]

theorem lookupDU_cons_some {a : Str} {w : JsonValue} {rest : TopObj} :
    lookupDU ((a, some w) :: rest) a = some w := by
  simp [lookupDU]

theorem lookupDU_cons_none {a : Str} {rest : TopObj} :
    lookupDU ((a, none) :: rest) a = lookupDU rest a := by
  simp [lookupDU]

theorem hasKeyB_false_of_cons {α : Type} {a : Str} {b : α} {rest : List (Str × α)} {k : Str}
    (h : hasKeyB ((a, b) :: rest) k = false) : a ≠ k ∧ hasKeyB rest k = false := by
  unfold hasKeyB at h
  rw [List.any_cons, Bool.or_eq_false_iff] at h
  refine ⟨?_, h.2⟩
  have := h.1
  simpa using this

theorem hasKeyB_cons_of_false {α : Type} {a : Str} {b : α} {rest : List (Str × α)} {k : Str}
    (h1 : a ≠ k) (h2 : hasKeyB rest k = false) : hasKeyB ((a, b) :: rest) k = false := by
  unfold hasKeyB at h2 ⊢
  rw [List.any_cons, Bool.or_eq_false_iff]
  exact ⟨by simpa using h1, h2⟩

theorem lookupDU_of_hasKeyB_false {res : TopObj} {k : Str}
    (h : hasKeyB res k = false) : lookupDU res k = none := by
  induction res with
  | nil => rfl
  | cons p rest ih =>
      obtain ⟨a, b⟩ := p
      obtain ⟨ha, hrest⟩ := hasKeyB_false_of_cons h
      rw [lookupDU_cons_ne ha, ih hrest]

theorem lookupDU_map_replace_ne {res : TopObj} {k k' : Str} (h : k' ≠ k)
    (w : Option JsonValue) :
    lookupDU (res.map (replaceEntry k' w)) k = lookupDU res k := by
  induction res with
  | nil => rfl
  | cons p rest ih =>
      obtain ⟨a, b⟩ := p
      rw [List.map_cons]
      by_cases ha : a = k'
      · subst ha
        rw [replaceEntry_self, lookupDU_cons_ne h, ih, lookupDU_cons_ne h]
      · rw [replaceEntry_other w b ha]
        by_cases hak : a = k
        · subst hak
          cases b with
          | some v => rw [lookupDU_cons_some, lookupDU_cons_some]
          | none => rw [lookupDU_cons_none, lookupDU_cons_none, ih]
        · rw [lookupDU_cons_ne hak, lookupDU_cons_ne hak, ih]

theorem lookupDU_append_ne {res : TopObj} {k k' : Str} (h : k' ≠ k)
    (w : Option JsonValue) :
    lookupDU (res ++ [(k', w)]) k = lookupDU res k := by
  induction res with
  | nil =>
      rw [List.nil_append, lookupDU_cons_ne h]
  | cons p rest ih =>
      obtain ⟨a, b⟩ := p
      rw [List.cons_append]
      by_cases hak : a = k
      · subst hak
        cases b with
        | none => rw [lookupDU_cons_none, lookupDU_cons_none, ih]
        | some v => rw [lookupDU_cons_some, lookupDU_cons_some]
      · rw [lookupDU_cons_ne hak, lookupDU_cons_ne hak, ih]

theorem lookupDU_setKV_ne {res : TopObj} {k k' : Str} (h : k' ≠ k)
    (w : Option JsonValue) :
    lookupDU (setKV res k' w) k = lookupDU res k := by
  unfold setKV
  by_cases hk : hasKeyB res k' = true
  · simp only [hk, if_true]
    exact lookupDU_map_replace_ne h w
  · simp only [hk, Bool.false_eq_true, if_false]
    exact lookupDU_append_ne h w

theorem lookupDU_map_replace_self_some {res : TopObj} {k : Str} (w : JsonValue)
    (hk : hasKeyB res k = true) :
    lookupDU (res.map (replaceEntry k (some w))) k = some w := by
  induction res with
  | nil => simp [hasKeyB] at hk
  | cons p rest ih =>
      obtain ⟨a, b⟩ := p
      rw [List.map_cons]
      by_cases ha : a = k
      · subst ha
        rw [replaceEntry_self, lookupDU_cons_some]
      · rw [replaceEntry_other _ b ha, lookupDU_cons_ne ha]
        have hrest : hasKeyB rest k = true := by
          unfold hasKeyB at hk ⊢
          rw [List.any_cons] at hk
          rcases Bool.or_eq_true_iff.mp hk with h1 | h1
          · exact absurd (by simpa using h1) ha
          · exact h1
        exact ih hrest

theorem lookupDU_map_replace_self_none {res : TopObj} {k : Str} :
    lookupDU (res.map (replaceEntry k none)) k = none := by
  induction res with
  | nil => rfl
  | cons p rest ih =>
      obtain ⟨a, b⟩ := p
      rw [List.map_cons]
      by_cases ha : a = k
      · subst ha
        rw [replaceEntry_self, lookupDU_cons_none, ih]
      · rw [replaceEntry_other _ b ha, lookupDU_cons_ne ha, ih]

theorem lookupDU_append_self_some {res : TopObj} {k : Str} (w : JsonValue)
    (hk : hasKeyB res k = false) :
    lookupDU (res ++ [(k, some w)]) k = some w := by
  induction res with
  | nil =>
      rw [List.nil_append]
      exact lookupDU_cons_some
  | cons p rest ih =>
      obtain ⟨a, b⟩ := p
      obtain ⟨ha, hrest⟩ := hasKeyB_false_of_cons hk
      rw [List.cons_append, lookupDU_cons_ne ha, ih hrest]

theorem lookupDU_setKV_self_some {res : TopObj} {k : Str} (w : JsonValue) :
    lookupDU (setKV res k (some w)) k = some w := by
  unfold setKV
  by_cases hk : hasKeyB res k = true
  · simp only [hk, if_true]
    exact lookupDU_map_replace_self_some w hk
  · have hk' : hasKeyB res k = false := by simpa using hk
    simp only [hk', Bool.false_eq_true, if_false]
    exact lookupDU_append_self_some w hk'

theorem lookupDU_append_self_none {res : TopObj} {k : Str} :
    lookupDU (res ++ [(k, none)]) k = lookupDU res k := by
  induction res with
  | nil => simp [lookupDU]
  | cons p rest ih =>
      obtain ⟨a, b⟩ := p
      rw [List.cons_append]
      by_cases hak : a = k
      · subst hak
        cases b with
        | none => rw [lookupDU_cons_none, lookupDU_cons_none, ih]
        | some v => rw [lookupDU_cons_some, lookupDU_cons_some]
      · rw [lookupDU_cons_ne hak, lookupDU_cons_ne hak, ih]

theorem lookupDU_setKV_self_none {res : TopObj} {k : Str} :
    lookupDU (setKV res k none) k = none := by
  unfold setKV
  by_cases hk : hasKeyB res k = true
  · simp only [hk, if_true]
    exact lookupDU_map_replace_self_none
  · have hk' : hasKeyB res k = false := by simpa using hk
    simp only [hk', Bool.false_eq_true, if_false]
    rw [lookupDU_append_self_none]
    exact lookupDU_of_hasKeyB_false hk'

theorem lookupDU_init (cur : JsObj) (k : Str) :
    lookupDU (cur.map (fun p => (p.1, some p.2))) k = lookupKV cur k := by
  induction cur with
  | nil => rfl
  | cons p rest ih =>
      obtain ⟨a, b⟩ := p
      rw [List.map_cons]
      by_cases ha : a = k
      · subst ha
        rw [lookupKV, if_pos rfl]
        exact lookupDU_cons_some
      · rw [lookupKV, if_neg ha]
        have hstep : lookupDU (((a, b).1, some (a, b).2) ::
            List.map (fun p => (p.1, some p.2)) rest) k
            = lookupDU (List.map (fun p => (p.1, some p.2)) rest) k :=
          lookupDU_cons_ne ha
        rw [hstep, ih]

/-! ## C4: protected fields keep the current document's value -/

theorem protected_elem_of_mem {k : Str} (hk : k ∈ PACKAGE_JSON_PROTECTED_FIELDS) :
    PACKAGE_JSON_PROTECTED_FIELDS.elem k = true := by
  fin_cases hk <;> decide

theorem mergeTop_fold_protected (cur : JsObj) (k : Str)
    (hk : k ∈ PACKAGE_JSON_PROTECTED_FIELDS) :
    ∀ (incList : List (Str × JsonValue)) (st : TopMergeState),
      lookupDU st.result k = lookupKV cur k →
      lookupDU ((incList.foldl (mergeTopStep cur) st).result) k = lookupKV cur k := by
  intro incList
  induction incList with
  | nil => intro st h; exact h
  | cons kv rest ih =>
      intro st h
      rw [List.foldl_cons]
      apply ih
      by_cases hkey : kv.1 = k
      · have helem : PACKAGE_JSON_PROTECTED_FIELDS.elem kv.1 = true := by
          rw [hkey]; exact protected_elem_of_mem hk
        unfold mergeTopStep
        rw [if_pos helem]
        dsimp only
        rw [hkey]
        cases hcur : lookupKV cur k with
        | some w => exact lookupDU_setKV_self_some w
        | none => exact lookupDU_setKV_self_none
      · unfold mergeTopStep
        split_ifs <;> dsimp only <;> rw [lookupDU_setKV_ne hkey, h]

/-- C4: for every pair of parsed manifest documents and every protected
key, the merged document (after `JSON.stringify` drops undefined-valued
properties) shows exactly the current document's pre-merge value at that
key: kept verbatim when present, still absent when absent, whatever the
incoming document supplies. -/
theorem mergeDocs_protected_keeps_current (cur inc : JsObj) (k : Str)
    (hk : k ∈ PACKAGE_JSON_PROTECTED_FIELDS) :
    lookupKV (dropUndefined (mergeDocs cur inc).result) k = lookupKV cur k := by
  rw [lookupKV_dropUndefined]
  unfold mergeDocs
  exact mergeTop_fold_protected cur k hk inc _ (lookupDU_init cur k)

/-- Witness for C4: the template tries to change `name` and to introduce
`author`; the merged document keeps `name` and stays without `author`. -/
theorem mergeDocs_protected_keeps_current_witness :
    ((S "name") ∈ PACKAGE_JSON_PROTECTED_FIELDS ∧
      lookupKV (dropUndefined (mergeDocs
          [(S "name", JsonValue.str (S "mine")), (S "version", JsonValue.str (S "1.0.0"))]
          [(S "name", JsonValue.str (S "theirs")), (S "author", JsonValue.str (S "impostor"))]).result)
        (S "name")
        = lookupKV [(S "name", JsonValue.str (S "mine")), (S "version", JsonValue.str (S "1.0.0"))] (S "name")) ∧
    ((S "author") ∈ PACKAGE_JSON_PROTECTED_FIELDS ∧
      lookupKV (dropUndefined (mergeDocs
          [(S "name", JsonValue.str (S "mine")), (S "version", JsonValue.str (S "1.0.0"))]
          [(S "name", JsonValue.str (S "theirs")), (S "author", JsonValue.str (S "impostor"))]).result)
        (S "author")
        = lookupKV [(S "name", JsonValue.str (S "mine")), (S "version", JsonValue.str (S "1.0.0"))] (S "author")) :=
  ⟨⟨by decide, mergeDocs_protected_keeps_current _ _ _ (by decide)⟩,
   ⟨by decide, mergeDocs_protected_keeps_current _ _ _ (by decide)⟩⟩

/-! ## C3: where the conflict sentinels land in the merged sub-object -/

/-- Keys free of the colon character; every legitimate manifest key is,
while every sentinel key contains `::`. -/
def colonFree (s : Str) : Prop := ∀ c ∈ s, c ≠ ':'

instance colonFreeDec (s : Str) : Decidable (colonFree s) := by
  unfold colonFree
  infer_instance

theorem ne_of_colonFree {s m : Str} (hs : colonFree s) (hm : ':' ∈ m) : s ≠ m :=
  fun h => (hs ':' (h ▸ hm)) rfl

theorem colon_mem_confstart (id : Str) : ':' ∈ S "conf-start::" ++ id :=
  List.mem_append.mpr (Or.inl (by decide))

theorem colon_mem_confmid (id : Str) : ':' ∈ S "conf-mid::" ++ id :=
  List.mem_append.mpr (Or.inl (by decide))

theorem colon_mem_confend (id : Str) : ':' ∈ S "conf-end::" ++ id :=
  List.mem_append.mpr (Or.inl (by decide))

theorem colon_mem_curr (k : Str) : ':' ∈ S "curr::" ++ k :=
  List.mem_append.mpr (Or.inl (by decide))

theorem colon_mem_tmpl (k : Str) : ':' ∈ S "tmpl::" ++ k :=
  List.mem_append.mpr (Or.inl (by decide))

theorem curr_ne_start (k id : Str) : S "curr::" ++ k ≠ S "conf-start::" ++ id := by
  intro h
  rw [show S "curr::" = ['c','u','r','r',':',':'] from rfl,
      show S "conf-start::" = ['c','o','n','f','-','s','t','a','r','t',':',':'] from rfl] at h
  simp at h

theorem mid_ne_start (id id' : Str) : S "conf-mid::" ++ id ≠ S "conf-start::" ++ id' := by
  intro h
  rw [show S "conf-mid::" = ['c','o','n','f','-','m','i','d',':',':'] from rfl,
      show S "conf-start::" = ['c','o','n','f','-','s','t','a','r','t',':',':'] from rfl] at h
  simp at h

theorem mid_ne_curr (id k : Str) : S "conf-mid::" ++ id ≠ S "curr::" ++ k := by
  intro h
  rw [show S "conf-mid::" = ['c','o','n','f','-','m','i','d',':',':'] from rfl,
      show S "curr::" = ['c','u','r','r',':',':'] from rfl] at h
  simp at h

theorem tmpl_ne_start (k id : Str) : S "tmpl::" ++ k ≠ S "conf-start::" ++ id := by
  intro h
  rw [show S "tmpl::" = ['t','m','p','l',':',':'] from rfl,
      show S "conf-start::" = ['c','o','n','f','-','s','t','a','r','t',':',':'] from rfl] at h
  simp at h

theorem tmpl_ne_curr (k k' : Str) : S "tmpl::" ++ k ≠ S "curr::" ++ k' := by
  intro h
  rw [show S "tmpl::" = ['t','m','p','l',':',':'] from rfl,
      show S "curr::" = ['c','u','r','r',':',':'] from rfl] at h
  simp at h

theorem tmpl_ne_mid (k id : Str) : S "tmpl::" ++ k ≠ S "conf-mid::" ++ id := by
  intro h
  rw [show S "tmpl::" = ['t','m','p','l',':',':'] from rfl,
      show S "conf-mid::" = ['c','o','n','f','-','m','i','d',':',':'] from rfl] at h
  simp at h

theorem end_ne_start (id id' : Str) : S "conf-end::" ++ id ≠ S "conf-start::" ++ id' := by
  intro h
  rw [show S "conf-end::" = ['c','o','n','f','-','e','n','d',':',':'] from rfl,
      show S "conf-start::" = ['c','o','n','f','-','s','t','a','r','t',':',':'] from rfl] at h
  simp at h

theorem end_ne_curr (id k : Str) : S "conf-end::" ++ id ≠ S "curr::" ++ k := by
  intro h
  rw [show S "conf-end::" = ['c','o','n','f','-','e','n','d',':',':'] from rfl,
      show S "curr::" = ['c','u','r','r',':',':'] from rfl] at h
  simp at h

theorem end_ne_mid (id id' : Str) : S "conf-end::" ++ id ≠ S "conf-mid::" ++ id' := by
  intro h
  rw [show S "conf-end::" = ['c','o','n','f','-','e','n','d',':',':'] from rfl,
      show S "conf-mid::" = ['c','o','n','f','-','m','i','d',':',':'] from rfl] at h
  simp at h

theorem end_ne_tmpl (id k : Str) : S "conf-end::" ++ id ≠ S "tmpl::" ++ k := by
  intro h
  rw [show S "conf-end::" = ['c','o','n','f','-','e','n','d',':',':'] from rfl,
      show S "tmpl::" = ['t','m','p','l',':',':'] from rfl] at h
  simp at h

theorem hasKeyB_false_of_all_ne {α : Type} {l : List (Str × α)} {m : Str}
    (h : ∀ p ∈ l, p.1 ≠ m) : hasKeyB l m = false := by
  unfold hasKeyB
  rw [List.any_eq_false]
  intro p hp
  simpa using h p hp

theorem setKV_fresh {α : Type} {o : List (Str × α)} {k : Str} (v : α)
    (h : hasKeyB o k = false) : setKV o k v = o ++ [(k, v)] := by
  unfold setKV
  rw [if_neg (by simp [h])]

theorem eraseKV_of_all_ne {α : Type} {l : List (Str × α)} {k : Str}
    (h : ∀ p ∈ l, p.1 ≠ k) : eraseKV l k = l := by
  unfold eraseKV
  apply List.filter_eq_self.mpr
  intro p hp
  simpa using h p hp

theorem eraseKV_middle {α : Type} (pre post : List (Str × α)) (k : Str) (a : α)
    (hpre : ∀ p ∈ pre, p.1 ≠ k) (hpost : ∀ p ∈ post, p.1 ≠ k) :
    eraseKV (pre ++ (k, a) :: post) k = pre ++ post := by
  unfold eraseKV
  rw [List.filter_append, List.filter_cons]
  have hc : (decide (((k, a) : Str × α).1 ≠ k)) = false := by simp
  rw [hc]
  simp only [Bool.false_eq_true, if_false]
  rw [List.filter_eq_self.mpr (fun p hp => by simpa using hpre p hp),
      List.filter_eq_self.mpr (fun p hp => by simpa using hpost p hp)]

theorem lookupKV_append_of_all_ne {α : Type} {l1 : List (Str × α)} (l2 : List (Str × α))
    {k : Str} (h : ∀ p ∈ l1, p.1 ≠ k) :
    lookupKV (l1 ++ l2) k = lookupKV l2 k := by
  induction l1 with
  | nil => rfl
  | cons p rest ih =>
      obtain ⟨a, b⟩ := p
      have ha : a ≠ k := h (a, b) (List.mem_cons_self _ _)
      rw [List.cons_append, lookupKV, if_neg ha]
      exact ih (fun q hq => h q (List.mem_cons_of_mem _ hq))

theorem hasKeyB_middle {α : Type} (pre post : List (Str × α)) (k : Str) (a : α) :
    hasKeyB (pre ++ (k, a) :: post) k = true := by
  unfold hasKeyB
  rw [List.any_eq_true]
  exact ⟨(k, a), by simp, by simp⟩

/-- The five sentinel entries appended for one diverged sub-key. -/
def markerBlock (c : Nat) (k : Str) (a b : JsonValue) : JsObj :=
  [(S "conf-start::" ++ padStart2 (natDigits c), JsonValue.str []),
   (S "curr::" ++ k, a),
   (S "conf-mid::" ++ padStart2 (natDigits c), JsonValue.str []),
   (S "tmpl::" ++ k, b),
   (S "conf-end::" ++ padStart2 (natDigits c), JsonValue.str [])]

theorem mergeSubStep_divergent {st : SubMergeState} {k : Str} {a b : JsonValue}
    (hhas : hasKeyB st.obj k = true)
    (hlook : lookupKV st.obj k = some a)
    (hch : hasValueChanged (some a) (some b) = true) :
    mergeSubStep st (k, b) =
      { obj := setKV (setKV (setKV (setKV (setKV (eraseKV st.obj k)
                  (S "conf-start::" ++ padStart2 (natDigits st.counter)) (JsonValue.str []))
                (S "curr::" ++ k) a)
              (S "conf-mid::" ++ padStart2 (natDigits st.counter)) (JsonValue.str []))
            (S "tmpl::" ++ k) b)
          (S "conf-end::" ++ padStart2 (natDigits st.counter)) (JsonValue.str [])
        counter := st.counter + 1
        recs := st.recs ++ [⟨st.counter, k, a, b⟩] } := by
  unfold mergeSubStep
  rw [if_neg (by simp [hhas])]
  dsimp only
  rw [hlook]
  rw [if_pos hch]
  simp [createConflictMarkers]

/-- C3 (amended): when a merge-candidate sub-key diverges, the five
sentinel keys replace it, but they are appended at the end of the merged
mapping (JS delete-then-assign moves the property to the end); the
sub-key's original position among its siblings is not kept. -/
theorem mergeSub_divergent_appends (pre post : JsObj) (k : Str) (a b : JsonValue) (c : Nat)
    (hpre : ∀ p ∈ pre, p.1 ≠ k) (hpost : ∀ p ∈ post, p.1 ≠ k)
    (hcf : ∀ p ∈ pre ++ post, colonFree p.1)
    (hab : hasValueChanged (some a) (some b) = true) :
    mergeSubObject (pre ++ (k, a) :: post) [(k, b)] c
      = ⟨pre ++ post ++ markerBlock c k a b, c + 1, [⟨c, k, a, b⟩]⟩ := by
  unfold mergeSubObject
  rw [List.foldl_cons, List.foldl_nil]
  have hhas : hasKeyB (pre ++ (k, a) :: post) k = true := hasKeyB_middle pre post k a
  have hlook : lookupKV (pre ++ (k, a) :: post) k = some a := by
    rw [lookupKV_append_of_all_ne _ hpre, lookupKV, if_pos rfl]
  rw [mergeSubStep_divergent hhas hlook hab]
  dsimp only
  rw [eraseKV_middle pre post k a hpre hpost]
  have hcfp : ∀ p ∈ pre ++ post, p.1 ≠ S "conf-start::" ++ padStart2 (natDigits c) :=
    fun p hp => ne_of_colonFree (hcf p hp) (colon_mem_confstart _)
  rw [setKV_fresh _ (hasKeyB_false_of_all_ne hcfp)]
  have hcfc : ∀ p ∈ (pre ++ post) ++ [(S "conf-start::" ++ padStart2 (natDigits c), JsonValue.str [])],
      p.1 ≠ S "curr::" ++ k := by
    intro p hp
    rcases List.mem_append.mp hp with hp | hp
    · exact fun h => ne_of_colonFree (hcf p hp) (colon_mem_curr k) h
    · simp at hp
      subst hp
      exact fun h => curr_ne_start k _ h.symm
  rw [setKV_fresh _ (hasKeyB_false_of_all_ne hcfc)]
  have hcfm : ∀ p ∈ ((pre ++ post) ++ [(S "conf-start::" ++ padStart2 (natDigits c), JsonValue.str [])])
      ++ [(S "curr::" ++ k, a)], p.1 ≠ S "conf-mid::" ++ padStart2 (natDigits c) := by
    intro p hp
    rcases List.mem_append.mp hp with hp | hp
    · rcases List.mem_append.mp hp with hp | hp
      · exact fun h => ne_of_colonFree (hcf p hp) (colon_mem_confmid _) h
      · simp at hp
        subst hp
        exact fun h => mid_ne_start _ _ h.symm
    · simp at hp
      subst hp
      exact fun h => mid_ne_curr _ _ h.symm
  rw [setKV_fresh _ (hasKeyB_false_of_all_ne hcfm)]
  have hcft : ∀ p ∈ (((pre ++ post) ++ [(S "conf-start::" ++ padStart2 (natDigits c), JsonValue.str [])])
      ++ [(S "curr::" ++ k, a)]) ++ [(S "conf-mid::" ++ padStart2 (natDigits c), JsonValue.str [])],
      p.1 ≠ S "tmpl::" ++ k := by
    intro p hp
    rcases List.mem_append.mp hp with hp | hp
    · rcases List.mem_append.mp hp with hp | hp
      · rcases List.mem_append.mp hp with hp | hp
        · exact fun h => ne_of_colonFree (hcf p hp) (colon_mem_tmpl k) h
        · simp at hp
          subst hp
          exact fun h => tmpl_ne_start _ _ h.symm
      · simp at hp
        subst hp
        exact fun h => tmpl_ne_curr _ _ h.symm
    · simp at hp
      subst hp
      exact fun h => tmpl_ne_mid _ _ h.symm
  rw [setKV_fresh _ (hasKeyB_false_of_all_ne hcft)]
  have hcfe : ∀ p ∈ ((((pre ++ post) ++ [(S "conf-start::" ++ padStart2 (natDigits c), JsonValue.str [])])
      ++ [(S "curr::" ++ k, a)]) ++ [(S "conf-mid::" ++ padStart2 (natDigits c), JsonValue.str [])])
      ++ [(S "tmpl::" ++ k, b)],
      p.1 ≠ S "conf-end::" ++ padStart2 (natDigits c) := by
    intro p hp
    rcases List.mem_append.mp hp with hp | hp
    · rcases List.mem_append.mp hp with hp | hp
      · rcases List.mem_append.mp hp with hp | hp
        · rcases List.mem_append.mp hp with hp | hp
          · exact fun h => ne_of_colonFree (hcf p hp) (colon_mem_confend _) h
          · simp at hp
            subst hp
            exact fun h => end_ne_start _ _ h.symm
        · simp at hp
          subst hp
          exact fun h => end_ne_curr _ _ h.symm
      · simp at hp
        subst hp
        exact fun h => end_ne_mid _ _ h.symm
    · simp at hp
      subst hp
      exact fun h => end_ne_tmpl _ _ h.symm
  rw [setKV_fresh _ (hasKeyB_false_of_all_ne hcfe)]
  simp [markerBlock, List.append_assoc]

/-- Counterexample for C3 as stated: in current `scripts` the diverged
`dev` precedes the unchanged `build`, but in the merged mapping the five
sentinel keys standing for `dev` come after `build`: the `delete` plus
re-insertions append them at the end instead of `dev`'s original slot. -/
theorem mergeSub_divergent_not_in_place :
    ((mergeSubObject
        [(S "dev", JsonValue.str (S "a")), (S "build", JsonValue.str (S "x"))]
        [(S "dev", JsonValue.str (S "b")), (S "build", JsonValue.str (S "x"))] 0).obj.map Prod.fst
      = [S "build", S "conf-start::00", S "curr::dev", S "conf-mid::00",
         S "tmpl::dev", S "conf-end::00"]) ∧
    ¬ (List.indexOf (S "curr::dev")
        ((mergeSubObject
          [(S "dev", JsonValue.str (S "a")), (S "build", JsonValue.str (S "x"))]
          [(S "dev", JsonValue.str (S "b")), (S "build", JsonValue.str (S "x"))] 0).obj.map Prod.fst)
      < List.indexOf (S "build")
        ((mergeSubObject
          [(S "dev", JsonValue.str (S "a")), (S "build", JsonValue.str (S "x"))]
          [(S "dev", JsonValue.str (S "b")), (S "build", JsonValue.str (S "x"))] 0).obj.map Prod.fst)) := by
  constructor
  · decide
  · decide

/-- Witness for the amended C3 at a concrete instance. -/
theorem mergeSub_divergent_appends_witness :
    ((∀ p ∈ [(S "pre1", JsonValue.str (S "u"))], p.1 ≠ S "dev") ∧
     (∀ p ∈ [(S "post1", JsonValue.str (S "w"))], p.1 ≠ S "dev") ∧
     (∀ p ∈ [(S "pre1", JsonValue.str (S "u"))] ++ [(S "post1", JsonValue.str (S "w"))], colonFree p.1) ∧
     hasValueChanged (some (JsonValue.str (S "a"))) (some (JsonValue.str (S "b"))) = true) ∧
    mergeSubObject ([(S "pre1", JsonValue.str (S "u"))] ++ (S "dev", JsonValue.str (S "a")) ::
        [(S "post1", JsonValue.str (S "w"))]) [(S "dev", JsonValue.str (S "b"))] 0
      = ⟨[(S "pre1", JsonValue.str (S "u"))] ++ [(S "post1", JsonValue.str (S "w"))] ++
          markerBlock 0 (S "dev") (JsonValue.str (S "a")) (JsonValue.str (S "b")), 0 + 1,
          [⟨0, S "dev", JsonValue.str (S "a"), JsonValue.str (S "b")⟩]⟩ :=
  ⟨⟨by decide, by decide, by decide, by decide⟩,
    mergeSub_divergent_appends _ _ _ _ _ _ (by decide) (by decide) (by decide) (by decide)⟩

/-! ## C7: template-only sub-keys are added, equal sub-keys stay quiet -/

theorem lookupKV_map_replace_ne {α : Type} {o : List (Str × α)} {k k' : Str}
    (h : k' ≠ k) (v : α) :
    lookupKV (o.map (replaceEntry k' v)) k = lookupKV o k := by
  induction o with
  | nil => rfl
  | cons p rest ih =>
      obtain ⟨a, b⟩ := p
      rw [List.map_cons]
      by_cases ha : a = k'
      · subst ha
        rw [replaceEntry_self, lookupKV, if_neg h, lookupKV, if_neg h, ih]
      · rw [replaceEntry_other _ b ha, lookupKV, lookupKV]
        by_cases hak : a = k
        · rw [if_pos hak, if_pos hak]
        · rw [if_neg hak, if_neg hak, ih]

theorem lookupKV_append_right_ne {α : Type} {o : List (Str × α)} {k k' : Str}
    (h : k' ≠ k) (v : α) :
    lookupKV (o ++ [(k', v)]) k = lookupKV o k := by
  induction o with
  | nil => simp [lookupKV, h]
  | cons p rest ih =>
      obtain ⟨a, b⟩ := p
      rw [List.cons_append, lookupKV, lookupKV]
      by_cases hak : a = k
      · rw [if_pos hak, if_pos hak]
      · rw [if_neg hak, if_neg hak, ih]

theorem lookupKV_setKV_ne {α : Type} {o : List (Str × α)} {k k' : Str}
    (h : k' ≠ k) (v : α) :
    lookupKV (setKV o k' v) k = lookupKV o k := by
  unfold setKV
  by_cases hk : hasKeyB o k' = true
  · rw [if_pos hk]
    exact lookupKV_map_replace_ne h v
  · rw [if_neg (by simp [hk])]
    exact lookupKV_append_right_ne h v

theorem lookupKV_eraseKV_ne {α : Type} {o : List (Str × α)} {k k' : Str}
    (h : k' ≠ k) :
    lookupKV (eraseKV o k') k = lookupKV o k := by
  induction o with
  | nil => rfl
  | cons p rest ih =>
      obtain ⟨a, b⟩ := p
      unfold eraseKV at ih ⊢
      rw [List.filter_cons]
      by_cases ha : a = k'
      · subst ha
        rw [show (decide (((a, b) : Str × α).1 ≠ a)) = false by simp]
        simp only [Bool.false_eq_true, if_false]
        rw [ih, lookupKV, if_neg h]
      · rw [show (decide (((a, b) : Str × α).1 ≠ k')) = true by simpa using ha]
        simp only [if_true]
        rw [lookupKV, lookupKV]
        by_cases hak : a = k
        · rw [if_pos hak, if_pos hak]
        · rw [if_neg hak, if_neg hak, ih]

theorem lookupKV_none_iff_hasKeyB_false {α : Type} (o : List (Str × α)) (k : Str) :
    lookupKV o k = none ↔ hasKeyB o k = false := by
  induction o with
  | nil => exact ⟨fun _ => rfl, fun _ => rfl⟩
  | cons p rest ih =>
      obtain ⟨a, b⟩ := p
      unfold hasKeyB at ih ⊢
      rw [List.any_cons, lookupKV, Bool.or_eq_false_iff]
      by_cases ha : a = k
      · rw [if_pos ha]
        constructor
        · intro hh; cases hh
        · intro hh
          exfalso
          have hc := hh.1
          rw [decide_eq_false_iff_not] at hc
          exact hc ha
      · rw [if_neg ha]
        constructor
        · intro hh
          exact ⟨decide_eq_false ha, ih.mp hh⟩
        · intro hh
          exact ih.mpr hh.2

theorem hasKeyB_true_of_lookup {α : Type} {o : List (Str × α)} {k : Str} {w : α}
    (h : lookupKV o k = some w) : hasKeyB o k = true := by
  by_contra hc
  have : hasKeyB o k = false := by simpa using hc
  rw [(lookupKV_none_iff_hasKeyB_false o k).mpr this] at h
  cases h

theorem lookupKV_append_self {α : Type} {o : List (Str × α)} {k : Str} (v : α)
    (h : hasKeyB o k = false) :
    lookupKV (o ++ [(k, v)]) k = some v := by
  induction o with
  | nil => simp [lookupKV]
  | cons p rest ih =>
      obtain ⟨a, b⟩ := p
      obtain ⟨ha, hrest⟩ := hasKeyB_false_of_cons h
      rw [List.cons_append, lookupKV, if_neg ha, ih hrest]

theorem mergeSubStep_new {st : SubMergeState} {kv : Str × JsonValue}
    (h : hasKeyB st.obj kv.1 = false) :
    mergeSubStep st kv = { st with obj := setKV st.obj kv.1 kv.2 } := by
  unfold mergeSubStep
  rw [if_pos (by simp [h])]

theorem mergeSubStep_equal {st : SubMergeState} {kv : Str × JsonValue} {w : JsonValue}
    (hlook : lookupKV st.obj kv.1 = some w)
    (hch : hasValueChanged (some w) (some kv.2) = false) :
    mergeSubStep st kv = st := by
  unfold mergeSubStep
  rw [if_neg (by simp [hasKeyB_true_of_lookup hlook])]
  rw [hlook, if_neg (by simp [hch])]

theorem mergeSubStep_preserves_lookup {st : SubMergeState} {kv : Str × JsonValue} {k : Str}
    (hk : kv.1 ≠ k) (hcf : colonFree k) :
    lookupKV (mergeSubStep st kv).obj k = lookupKV st.obj k := by
  unfold mergeSubStep
  split_ifs with h1 h2
  · dsimp only
    rw [lookupKV_setKV_ne hk]
  · simp only [createConflictMarkers]
    rw [lookupKV_setKV_ne (Ne.symm (ne_of_colonFree hcf (colon_mem_confend _))),
        lookupKV_setKV_ne (Ne.symm (ne_of_colonFree hcf (colon_mem_tmpl _))),
        lookupKV_setKV_ne (Ne.symm (ne_of_colonFree hcf (colon_mem_confmid _))),
        lookupKV_setKV_ne (Ne.symm (ne_of_colonFree hcf (colon_mem_curr _))),
        lookupKV_setKV_ne (Ne.symm (ne_of_colonFree hcf (colon_mem_confstart _))),
        lookupKV_eraseKV_ne hk]
  · rfl

theorem mergeSubStep_recs_cases (st : SubMergeState) (kv : Str × JsonValue) :
    (mergeSubStep st kv).recs = st.recs ∨
    (mergeSubStep st kv).recs
      = st.recs ++ [⟨st.counter, kv.1, (lookupKV st.obj kv.1).getD JsonValue.null, kv.2⟩] := by
  unfold mergeSubStep
  split_ifs
  · exact Or.inl rfl
  · exact Or.inr rfl
  · exact Or.inl rfl

theorem mergeSub_foldl_preserves_lookup {k : Str} (hcf : colonFree k) :
    ∀ (l : List (Str × JsonValue)) (st : SubMergeState), (∀ p ∈ l, p.1 ≠ k) →
      lookupKV (l.foldl mergeSubStep st).obj k = lookupKV st.obj k := by
  intro l
  induction l with
  | nil => intro st _; rfl
  | cons kv rest ih =>
      intro st h
      rw [List.foldl_cons, ih _ (fun p hp => h p (List.mem_cons_of_mem _ hp)),
        mergeSubStep_preserves_lookup (h kv (List.mem_cons_self _ _)) hcf]

theorem mergeSub_foldl_recs {k : Str} :
    ∀ (l : List (Str × JsonValue)) (st : SubMergeState), (∀ p ∈ l, p.1 ≠ k) →
      (∀ r ∈ st.recs, r.key ≠ k) →
      ∀ r ∈ (l.foldl mergeSubStep st).recs, r.key ≠ k := by
  intro l
  induction l with
  | nil => intro st _ hr; exact hr
  | cons kv rest ih =>
      intro st h hr
      rw [List.foldl_cons]
      apply ih _ (fun p hp => h p (List.mem_cons_of_mem _ hp))
      intro r hrr
      rcases mergeSubStep_recs_cases st kv with hc | hc
      · exact hr r (hc ▸ hrr)
      · rw [hc] at hrr
        rcases List.mem_append.mp hrr with hm | hm
        · exact hr r hm
        · have : r = ⟨st.counter, kv.1, (lookupKV st.obj kv.1).getD JsonValue.null, kv.2⟩ := by
            simpa using hm
          rw [this]
          exact h kv (List.mem_cons_self _ _)

/-- The sub-merge behaviour, at the sub-object level, for one incoming
sub-key that is new or structurally equal: added with the incoming value,
or kept at the current value, in both cases with no conflict record keyed
by it. -/
theorem mergeSub_subkey (co io1 io2 : JsObj) (k : Str) (v : JsonValue) (c : Nat)
    (hcf : colonFree k) (h1 : ∀ p ∈ io1, p.1 ≠ k) (h2 : ∀ p ∈ io2, p.1 ≠ k) :
    (hasKeyB co k = false →
      lookupKV (mergeSubObject co (io1 ++ (k, v) :: io2) c).obj k = some v ∧
      ∀ r ∈ (mergeSubObject co (io1 ++ (k, v) :: io2) c).recs, r.key ≠ k) ∧
    (∀ w, lookupKV co k = some w → hasValueChanged (some w) (some v) = false →
      lookupKV (mergeSubObject co (io1 ++ (k, v) :: io2) c).obj k = some w ∧
      ∀ r ∈ (mergeSubObject co (io1 ++ (k, v) :: io2) c).recs, r.key ≠ k) := by
  unfold mergeSubObject
  rw [List.foldl_append, List.foldl_cons]
  have hst1look : lookupKV ((io1.foldl mergeSubStep ⟨co, c, []⟩).obj) k = lookupKV co k :=
    mergeSub_foldl_preserves_lookup hcf io1 _ h1
  have hst1recs : ∀ r ∈ (io1.foldl mergeSubStep ⟨co, c, []⟩).recs, r.key ≠ k :=
    mergeSub_foldl_recs io1 _ h1 (by intro r hr; cases hr)
  constructor
  · intro hnew
    have hlooknone : lookupKV ((io1.foldl mergeSubStep ⟨co, c, []⟩).obj) k = none := by
      rw [hst1look]
      exact (lookupKV_none_iff_hasKeyB_false co k).mpr hnew
    have hkeyfalse : hasKeyB ((io1.foldl mergeSubStep ⟨co, c, []⟩).obj) k = false :=
      (lookupKV_none_iff_hasKeyB_false _ k).mp hlooknone
    rw [mergeSubStep_new hkeyfalse]
    constructor
    · rw [mergeSub_foldl_preserves_lookup hcf io2 _ h2]
      dsimp only
      rw [setKV_fresh _ hkeyfalse]
      exact lookupKV_append_self v hkeyfalse
    · apply mergeSub_foldl_recs io2 _ h2
      exact hst1recs
  · intro w hw hch
    have hlookw : lookupKV ((io1.foldl mergeSubStep ⟨co, c, []⟩).obj) k = some w := by
      rw [hst1look, hw]
    rw [mergeSubStep_equal hlookw hch]
    constructor
    · rw [mergeSub_foldl_preserves_lookup hcf io2 _ h2, hlookw]
    · exact mergeSub_foldl_recs io2 _ h2 hst1recs

theorem merge_field_not_protected {K : Str}
    (h : PACKAGE_JSON_MERGE_FIELDS.elem K = true) :
    PACKAGE_JSON_PROTECTED_FIELDS.elem K = false := by
  have hmem : K ∈ PACKAGE_JSON_MERGE_FIELDS := by
    have := List.mem_of_elem_eq_true h
    exact this
  fin_cases hmem <;> decide

theorem merge_field_not_mem_protected {K : Str}
    (h : PACKAGE_JSON_MERGE_FIELDS.elem K = true) :
    K ∉ PACKAGE_JSON_PROTECTED_FIELDS := by
  intro hmem
  have hh := protected_elem_of_mem hmem
  rw [merge_field_not_protected h] at hh
  cases hh

theorem mergeTopStep_preserves_lookupDU {cur : JsObj} {st : TopMergeState}
    {kv : Str × JsonValue} {K : Str} (h : kv.1 ≠ K) :
    lookupDU (mergeTopStep cur st kv).result K = lookupDU st.result K := by
  unfold mergeTopStep
  split_ifs <;> dsimp only <;> rw [lookupDU_setKV_ne h]

theorem mergeTop_foldl_preserves_lookupDU {cur : JsObj} {K : Str} :
    ∀ (l : List (Str × JsonValue)) (st : TopMergeState), (∀ p ∈ l, p.1 ≠ K) →
      lookupDU ((l.foldl (mergeTopStep cur) st).result) K = lookupDU st.result K := by
  intro l
  induction l with
  | nil => intro st _; rfl
  | cons kv rest ih =>
      intro st h
      rw [List.foldl_cons, ih _ (fun p hp => h p (List.mem_cons_of_mem _ hp)),
        mergeTopStep_preserves_lookupDU (h kv (List.mem_cons_self _ _))]

theorem exists_split_of_mem_nodup {α : Type} {l : List (Str × α)} {k : Str} {v : α}
    (hmem : (k, v) ∈ l) (hnd : (l.map Prod.fst).Nodup) :
    ∃ l1 l2, l = l1 ++ (k, v) :: l2 ∧ (∀ p ∈ l1, p.1 ≠ k) ∧ (∀ p ∈ l2, p.1 ≠ k) := by
  obtain ⟨l1, l2, rfl⟩ := List.append_of_mem hmem
  refine ⟨l1, l2, rfl, ?_, ?_⟩
  · intro p hp hpk
    rw [List.map_append, List.map_cons] at hnd
    have hdisj := (List.nodup_append.mp hnd).2.2
    exact hdisj (List.mem_map.mpr ⟨p, hp, rfl⟩) (by rw [hpk]; exact List.mem_cons_self _ _)
  · intro p hp hpk
    rw [List.map_append, List.map_cons] at hnd
    have hcons := (List.nodup_append.mp hnd).2.1
    rw [List.nodup_cons] at hcons
    exact hcons.1 (by rw [← hpk]; exact List.mem_map.mpr ⟨p, hp, rfl⟩)

/-- C7: for a merge-candidate field of the incoming manifest, every
sub-key absent from the current object is added with the incoming value,
every sub-key with a structurally equal value keeps the current value, and
in both cases no conflict record keyed by that sub-key is produced; the
merged document carries exactly this sub-merge result under the field. -/
theorem mergeDocs_subkey_new_or_equal (cur inc : JsObj) (K : Str) (o : JsObj)
    (k : Str) (v : JsonValue)
    (hK : PACKAGE_JSON_MERGE_FIELDS.elem K = true)
    (hndinc : (inc.map Prod.fst).Nodup)
    (hKinc : (K, JsonValue.obj o) ∈ inc)
    (hndo : (o.map Prod.fst).Nodup)
    (hko : (k, v) ∈ o)
    (hcf : colonFree k) :
    ∃ c,
      lookupDU (mergeDocs cur inc).result K
        = some (JsonValue.obj (mergeSubObject (spreadToObj (lookupKV cur K)) o c).obj) ∧
      (hasKeyB (spreadToObj (lookupKV cur K)) k = false →
        lookupKV (mergeSubObject (spreadToObj (lookupKV cur K)) o c).obj k = some v ∧
        ∀ r ∈ (mergeSubObject (spreadToObj (lookupKV cur K)) o c).recs, r.key ≠ k) ∧
      (∀ w, lookupKV (spreadToObj (lookupKV cur K)) k = some w →
        hasValueChanged (some w) (some v) = false →
        lookupKV (mergeSubObject (spreadToObj (lookupKV cur K)) o c).obj k = some w ∧
        ∀ r ∈ (mergeSubObject (spreadToObj (lookupKV cur K)) o c).recs, r.key ≠ k) := by
  obtain ⟨inc1, inc2, rfl, hinc1, hinc2⟩ := exists_split_of_mem_nodup hKinc hndinc
  obtain ⟨o1, o2, ho, ho1, ho2⟩ := exists_split_of_mem_nodup hko hndo
  refine ⟨(inc1.foldl (mergeTopStep cur)
      ⟨cur.map (fun p => (p.1, some p.2)), 0, []⟩).counter,
    ?_, ?_, ?_⟩
  · unfold mergeDocs
    rw [List.foldl_append, List.foldl_cons]
    rw [mergeTop_foldl_preserves_lookupDU inc2 _ hinc2]
    have hstep : ∀ st : TopMergeState,
        lookupDU (mergeTopStep cur st (K, JsonValue.obj o)).result K
          = some (JsonValue.obj
              (mergeSubObject (spreadToObj (lookupKV cur K)) o st.counter).obj) := by
      intro st
      unfold mergeTopStep
      rw [if_neg (by simp; exact merge_field_not_mem_protected hK)]
      rw [if_pos (by simp [typeofIsObject, isNullB]; exact List.mem_of_elem_eq_true hK)]
      simp only [entriesOf]
      rw [lookupDU_setKV_self_some]
    rw [hstep]
  · intro hnew
    rw [ho]
    exact (mergeSub_subkey _ o1 o2 k v _ hcf ho1 ho2).1 hnew
  · intro w hw hch
    rw [ho]
    exact (mergeSub_subkey _ o1 o2 k v _ hcf ho1 ho2).2 w hw hch

/-- Witness for C7 at the spec's scenario: current has no `dependencies`,
the template brings `dependencies.react = "^17"`. -/
theorem mergeDocs_subkey_new_or_equal_witness :
    (PACKAGE_JSON_MERGE_FIELDS.elem (S "dependencies") = true ∧
     (([(S "dependencies", JsonValue.obj [(S "react", JsonValue.str (S "^17"))])] : JsObj).map Prod.fst).Nodup ∧
     ((S "dependencies", JsonValue.obj [(S "react", JsonValue.str (S "^17"))])
        ∈ ([(S "dependencies", JsonValue.obj [(S "react", JsonValue.str (S "^17"))])] : JsObj)) ∧
     (([(S "react", JsonValue.str (S "^17"))] : JsObj).map Prod.fst).Nodup ∧
     ((S "react", JsonValue.str (S "^17")) ∈ ([(S "react", JsonValue.str (S "^17"))] : JsObj)) ∧
     colonFree (S "react")) ∧
    (∃ c,
      lookupDU (mergeDocs [(S "name", JsonValue.str (S "p"))]
          [(S "dependencies", JsonValue.obj [(S "react", JsonValue.str (S "^17"))])]).result
          (S "dependencies")
        = some (JsonValue.obj (mergeSubObject
            (spreadToObj (lookupKV [(S "name", JsonValue.str (S "p"))] (S "dependencies")))
            [(S "react", JsonValue.str (S "^17"))] c).obj) ∧
      (hasKeyB (spreadToObj (lookupKV [(S "name", JsonValue.str (S "p"))] (S "dependencies")))
          (S "react") = false →
        lookupKV (mergeSubObject
            (spreadToObj (lookupKV [(S "name", JsonValue.str (S "p"))] (S "dependencies")))
            [(S "react", JsonValue.str (S "^17"))] c).obj (S "react")
          = some (JsonValue.str (S "^17")) ∧
        ∀ r ∈ (mergeSubObject
            (spreadToObj (lookupKV [(S "name", JsonValue.str (S "p"))] (S "dependencies")))
            [(S "react", JsonValue.str (S "^17"))] c).recs, r.key ≠ S "react") ∧
      (∀ w, lookupKV (spreadToObj (lookupKV [(S "name", JsonValue.str (S "p"))] (S "dependencies")))
          (S "react") = some w →
        hasValueChanged (some w) (some (JsonValue.str (S "^17"))) = false →
        lookupKV (mergeSubObject
            (spreadToObj (lookupKV [(S "name", JsonValue.str (S "p"))] (S "dependencies")))
            [(S "react", JsonValue.str (S "^17"))] c).obj (S "react") = some w ∧
        ∀ r ∈ (mergeSubObject
            (spreadToObj (lookupKV [(S "name", JsonValue.str (S "p"))] (S "dependencies")))
            [(S "react", JsonValue.str (S "^17"))] c).recs, r.key ≠ S "react")) :=
  ⟨⟨by decide, by decide, List.mem_singleton.mpr rfl, by decide,
    List.mem_singleton.mpr rfl, by decide⟩,
   mergeDocs_subkey_new_or_equal _ _ _ _ _ _ (by decide) (by decide)
     (List.mem_singleton.mpr rfl) (by decide) (List.mem_singleton.mpr rfl) (by decide)⟩

/-! ## C10: top-level key order of the merged document -/

theorem hasKeyB_iff_mem_keys {α : Type} (o : List (Str × α)) (k : Str) :
    hasKeyB o k = true ↔ k ∈ o.map Prod.fst := by
  unfold hasKeyB
  rw [List.any_eq_true]
  constructor
  · rintro ⟨p, hp, he⟩
    have hpk : p.1 = k := of_decide_eq_true he
    exact hpk ▸ List.mem_map.mpr ⟨p, hp, rfl⟩
  · intro hm
    obtain ⟨p, hp, he⟩ := List.mem_map.mp hm
    exact ⟨p, hp, decide_eq_true he⟩

theorem hasKeyB_false_iff_not_mem_keys {α : Type} (o : List (Str × α)) (k : Str) :
    hasKeyB o k = false ↔ k ∉ o.map Prod.fst := by
  constructor
  · intro h hm
    rw [(hasKeyB_iff_mem_keys o k).mpr hm] at h
    cases h
  · intro hm
    cases hh : hasKeyB o k
    · rfl
    · exact absurd ((hasKeyB_iff_mem_keys o k).mp hh) hm

theorem keys_map_replace {α : Type} (o : List (Str × α)) (k : Str) (w : α) :
    (o.map (replaceEntry k w)).map Prod.fst = o.map Prod.fst := by
  induction o with
  | nil => rfl
  | cons p rest ih =>
      obtain ⟨a, b⟩ := p
      by_cases ha : a = k
      · subst ha
        rw [List.map_cons, replaceEntry_self, List.map_cons, List.map_cons, ih]
      · rw [List.map_cons, replaceEntry_other _ b ha, List.map_cons, List.map_cons, ih]

theorem keys_setKV_existing {α : Type} {o : List (Str × α)} {k : Str} (w : α)
    (h : hasKeyB o k = true) :
    (setKV o k w).map Prod.fst = o.map Prod.fst := by
  unfold setKV
  rw [if_pos h]
  exact keys_map_replace o k w

theorem keys_setKV_fresh {α : Type} {o : List (Str × α)} {k : Str} (w : α)
    (h : hasKeyB o k = false) :
    (setKV o k w).map Prod.fst = o.map Prod.fst ++ [k] := by
  rw [setKV_fresh _ h, List.map_append]
  rfl

theorem hasKeyB_setKV_self {α : Type} (o : List (Str × α)) (k : Str) (w : α) :
    hasKeyB (setKV o k w) k = true := by
  rw [hasKeyB_iff_mem_keys]
  cases hh : hasKeyB o k
  · rw [keys_setKV_fresh w hh]
    exact List.mem_append.mpr (Or.inr (List.mem_singleton.mpr rfl))
  · rw [keys_setKV_existing w hh]
    exact (hasKeyB_iff_mem_keys o k).mp hh

theorem hasKeyB_setKV_ne {α : Type} {o : List (Str × α)} {k x : Str} (hx : x ≠ k) (w : α) :
    hasKeyB (setKV o k w) x = hasKeyB o x := by
  cases hh : hasKeyB o k
  · rw [setKV_fresh _ hh]
    cases hhx : hasKeyB o x
    · have hnot : x ∉ (o ++ [(k, w)]).map Prod.fst := by
        rw [List.map_append]
        intro hm
        rcases List.mem_append.mp hm with hm | hm
        · exact (hasKeyB_false_iff_not_mem_keys o x).mp hhx hm
        · simp at hm
          exact hx hm
      rw [(hasKeyB_false_iff_not_mem_keys _ x).mpr hnot]
    · have hmem : x ∈ (o ++ [(k, w)]).map Prod.fst := by
        rw [List.map_append]
        exact List.mem_append.mpr (Or.inl ((hasKeyB_iff_mem_keys o x).mp hhx))
      rw [(hasKeyB_iff_mem_keys _ x).mpr hmem]
  · cases hhx : hasKeyB o x
    · have hnot : x ∉ (setKV o k w).map Prod.fst := by
        rw [keys_setKV_existing w hh]
        exact (hasKeyB_false_iff_not_mem_keys o x).mp hhx
      rw [(hasKeyB_false_iff_not_mem_keys _ x).mpr hnot]
    · have hmem : x ∈ (setKV o k w).map Prod.fst := by
        rw [keys_setKV_existing w hh]
        exact (hasKeyB_iff_mem_keys o x).mp hhx
      rw [(hasKeyB_iff_mem_keys _ x).mpr hmem]

theorem mem_setKV {α : Type} {o : List (Str × α)} {k : Str} {w : α} {p : Str × α}
    (hp : p ∈ setKV o k w) : p ∈ o ∨ p = (k, w) := by
  unfold setKV at hp
  by_cases hh : hasKeyB o k = true
  · rw [if_pos hh] at hp
    obtain ⟨q, hq, he⟩ := List.mem_map.mp hp
    by_cases hqk : q.1 = k
    · right
      rw [← he]
      unfold replaceEntry
      rw [if_pos hqk]
    · left
      rw [← he]
      unfold replaceEntry
      rw [if_neg hqk]
      exact hq
  · rw [if_neg hh] at hp
    rcases List.mem_append.mp hp with hm | hm
    · exact Or.inl hm
    · exact Or.inr (by simpa using hm)

theorem lookup_isSome_of_hasKeyB {α : Type} {o : List (Str × α)} {k : Str}
    (h : hasKeyB o k = true) : ∃ u, lookupKV o k = some u := by
  cases hl : lookupKV o k with
  | none =>
      rw [(lookupKV_none_iff_hasKeyB_false o k).mp hl] at h
      cases h
  | some u => exact ⟨u, rfl⟩

theorem duKeys_map_replace_some {o : TopObj} {k : Str} (w : JsonValue)
    (hsome : ∀ p ∈ o, p.1 = k → p.2.isSome = true) :
    (dropUndefined (o.map (replaceEntry k (some w)))).map Prod.fst
      = (dropUndefined o).map Prod.fst := by
  induction o with
  | nil => rfl
  | cons p rest ih =>
      obtain ⟨a, b⟩ := p
      have ihrest := ih (fun q hq => hsome q (List.mem_cons_of_mem _ hq))
      by_cases ha : a = k
      · subst ha
        have hb := hsome (a, b) (List.mem_cons_self _ _) rfl
        obtain ⟨b', rfl⟩ := Option.isSome_iff_exists.mp hb
        rw [List.map_cons, replaceEntry_self]
        show (a :: (dropUndefined (rest.map (replaceEntry a (some w)))).map Prod.fst)
          = (a :: (dropUndefined rest).map Prod.fst)
        rw [ihrest]
      · rw [List.map_cons, replaceEntry_other _ b ha]
        cases b with
        | none =>
            show (dropUndefined (rest.map (replaceEntry k (some w)))).map Prod.fst
              = (dropUndefined rest).map Prod.fst
            exact ihrest
        | some b' =>
            show (a :: (dropUndefined (rest.map (replaceEntry k (some w)))).map Prod.fst)
              = (a :: (dropUndefined rest).map Prod.fst)
            rw [ihrest]

theorem dropUndefined_append (o l : TopObj) :
    dropUndefined (o ++ l) = dropUndefined o ++ dropUndefined l := by
  unfold dropUndefined
  exact List.filterMap_append o l _

theorem dropUndefined_singleton_some (k : Str) (w : JsonValue) :
    dropUndefined [(k, some w)] = [(k, w)] := rfl

theorem dropUndefined_singleton_none (k : Str) :
    dropUndefined [(k, (none : Option JsonValue))] = [] := rfl

theorem dropUndefined_init (cur : JsObj) :
    dropUndefined (cur.map (fun p => (p.1, some p.2))) = cur := by
  induction cur with
  | nil => rfl
  | cons p rest ih =>
      obtain ⟨a, b⟩ := p
      show (a, b) :: dropUndefined (rest.map (fun p => (p.1, some p.2))) = (a, b) :: rest
      rw [ih]

theorem hasKeyB_init (cur : JsObj) (x : Str) :
    hasKeyB (cur.map (fun p => (p.1, some p.2))) x = hasKeyB cur x := by
  cases hh : hasKeyB cur x
  · rw [(hasKeyB_false_iff_not_mem_keys _ x).mpr]
    rw [List.map_map]
    intro hm
    obtain ⟨p, hp, he⟩ := List.mem_map.mp hm
    exact (hasKeyB_false_iff_not_mem_keys cur x).mp hh
      (List.mem_map.mpr ⟨p, hp, he⟩)
  · rw [(hasKeyB_iff_mem_keys _ x).mpr]
    rw [List.map_map]
    obtain ⟨p, hp, he⟩ := List.mem_map.mp ((hasKeyB_iff_mem_keys cur x).mp hh)
    exact List.mem_map.mpr ⟨p, hp, he⟩

theorem mergeTopStep_result_setKV (cur : JsObj) (st : TopMergeState) (kv : Str × JsonValue) :
    ∃ w : Option JsonValue, (mergeTopStep cur st kv).result = setKV st.result kv.1 w ∧
      (PACKAGE_JSON_PROTECTED_FIELDS.elem kv.1 = true → w = lookupKV cur kv.1) ∧
      (PACKAGE_JSON_PROTECTED_FIELDS.elem kv.1 = false → w.isSome = true) := by
  unfold mergeTopStep
  split_ifs with h1 h2
  · exact ⟨lookupKV cur kv.1, rfl, fun _ => rfl, fun hf => by rw [hf] at h1; cases h1⟩
  · refine ⟨some (JsonValue.obj (mergeSubObject (spreadToObj (lookupKV cur kv.1))
        (entriesOf kv.2) st.counter).obj), rfl, ?_, fun _ => rfl⟩
    intro ht
    exact absurd ht h1
  · refine ⟨some kv.2, rfl, ?_, fun _ => rfl⟩
    intro ht
    exact absurd ht h1

theorem mergeTop_fold_keys (cur : JsObj) :
    ∀ (l : List (Str × JsonValue)) (st : TopMergeState),
      (l.map Prod.fst).Nodup →
      (∀ p ∈ l, hasKeyB cur p.1 = false → hasKeyB st.result p.1 = false) →
      (∀ p ∈ st.result, hasKeyB cur p.1 = true → p.2.isSome = true) →
      (∀ x : Str, hasKeyB cur x = true → hasKeyB st.result x = true) →
      ((l.foldl (mergeTopStep cur) st).result).map Prod.fst
        = st.result.map Prod.fst ++ (l.map Prod.fst).filter (fun x => !hasKeyB cur x) ∧
      ((dropUndefined (l.foldl (mergeTopStep cur) st).result).map Prod.fst)
        = (dropUndefined st.result).map Prod.fst ++
          (l.map Prod.fst).filter
            (fun x => !hasKeyB cur x && !PACKAGE_JSON_PROTECTED_FIELDS.elem x) := by
  intro l
  induction l with
  | nil =>
      intro st _ _ _ _
      constructor <;> simp
  | cons kv rest ih =>
      intro st hnd h1 h2 h3
      rw [List.foldl_cons, List.map_cons, List.filter_cons, List.filter_cons]
      obtain ⟨w, hw, hwprot, hwnot⟩ := mergeTopStep_result_setKV cur st kv
      have hndrest : (rest.map Prod.fst).Nodup := (List.nodup_cons.mp hnd).2
      have hkvrest : kv.1 ∉ rest.map Prod.fst := (List.nodup_cons.mp hnd).1
      by_cases hA : hasKeyB cur kv.1 = true
      · -- the incoming key already exists in the current document:
        -- in-place update, both key sequences unchanged
        have hres : hasKeyB st.result kv.1 = true := h3 kv.1 hA
        have hwsome : w.isSome = true := by
          cases hP : PACKAGE_JSON_PROTECTED_FIELDS.elem kv.1
          · exact hwnot hP
          · rw [hwprot hP]
            obtain ⟨u, hu⟩ := lookup_isSome_of_hasKeyB hA
            rw [hu]
            rfl
        obtain ⟨w', rfl⟩ := Option.isSome_iff_exists.mp hwsome
        have hkeys : (mergeTopStep cur st kv).result.map Prod.fst = st.result.map Prod.fst := by
          rw [hw]
          exact keys_setKV_existing _ hres
        have hdu : (dropUndefined (mergeTopStep cur st kv).result).map Prod.fst
            = (dropUndefined st.result).map Prod.fst := by
          rw [hw]
          unfold setKV
          rw [if_pos hres]
          exact duKeys_map_replace_some w' (fun p hp hpk => h2 p hp (hpk ▸ hA))
        have hcond1 : ∀ p ∈ rest, hasKeyB cur p.1 = false →
            hasKeyB (mergeTopStep cur st kv).result p.1 = false := by
          intro p hp hpf
          have hpk : p.1 ≠ kv.1 := fun he => by rw [he, hA] at hpf; cases hpf
          rw [hw, hasKeyB_setKV_ne hpk]
          exact h1 p (List.mem_cons_of_mem _ hp) hpf
        have hcond2 : ∀ p ∈ (mergeTopStep cur st kv).result,
            hasKeyB cur p.1 = true → p.2.isSome = true := by
          intro p hp hpc
          rw [hw] at hp
          rcases mem_setKV hp with hm | hm
          · exact h2 p hm hpc
          · rw [hm]
            rfl
        have hcond3 : ∀ x : Str, hasKeyB cur x = true →
            hasKeyB (mergeTopStep cur st kv).result x = true := by
          intro x hx
          by_cases hxk : x = kv.1
          · rw [hw, hxk]
            exact hasKeyB_setKV_self _ _ _
          · rw [hw, hasKeyB_setKV_ne hxk]
            exact h3 x hx
        obtain ⟨ihk, ihd⟩ := ih (mergeTopStep cur st kv) hndrest hcond1 hcond2 hcond3
        constructor
        · rw [ihk, hkeys]
          simp [hA]
        · rw [ihd, hdu]
          simp [hA]
      · -- the incoming key is new: appended at the end (dropped again at
        -- serialization when it is protected, since its value is undefined)
        have hAf : hasKeyB cur kv.1 = false := by simpa using hA
        have hres : hasKeyB st.result kv.1 = false :=
          h1 kv (List.mem_cons_self _ _) hAf
        have hkeys : (mergeTopStep cur st kv).result.map Prod.fst
            = st.result.map Prod.fst ++ [kv.1] := by
          rw [hw]
          exact keys_setKV_fresh _ hres
        have hsetapp : (mergeTopStep cur st kv).result = st.result ++ [(kv.1, w)] := by
          rw [hw]
          exact setKV_fresh _ hres
        have hcond1 : ∀ p ∈ rest, hasKeyB cur p.1 = false →
            hasKeyB (mergeTopStep cur st kv).result p.1 = false := by
          intro p hp hpf
          have hpk : p.1 ≠ kv.1 := by
            intro he
            exact hkvrest (he ▸ List.mem_map.mpr ⟨p, hp, rfl⟩)
          rw [hw, hasKeyB_setKV_ne hpk]
          exact h1 p (List.mem_cons_of_mem _ hp) hpf
        have hcond2 : ∀ p ∈ (mergeTopStep cur st kv).result,
            hasKeyB cur p.1 = true → p.2.isSome = true := by
          intro p hp hpc
          rw [hw] at hp
          rcases mem_setKV hp with hm | hm
          · exact h2 p hm hpc
          · exfalso
            rw [hm] at hpc
            rw [hAf] at hpc
            cases hpc
        have hcond3 : ∀ x : Str, hasKeyB cur x = true →
            hasKeyB (mergeTopStep cur st kv).result x = true := by
          intro x hx
          by_cases hxk : x = kv.1
          · rw [hw, hxk]
            exact hasKeyB_setKV_self _ _ _
          · rw [hw, hasKeyB_setKV_ne hxk]
            exact h3 x hx
        obtain ⟨ihk, ihd⟩ := ih (mergeTopStep cur st kv) hndrest hcond1 hcond2 hcond3
        constructor
        · rw [ihk, hkeys]
          simp [hAf]
        · rw [ihd]
          cases hP : PACKAGE_JSON_PROTECTED_FIELDS.elem kv.1
          · have hwsome := hwnot hP
            obtain ⟨w', rfl⟩ := Option.isSome_iff_exists.mp hwsome
            have hdu2 : (dropUndefined (mergeTopStep cur st kv).result).map Prod.fst
                = (dropUndefined st.result).map Prod.fst ++ [kv.1] := by
              rw [hsetapp, dropUndefined_append, List.map_append, dropUndefined_singleton_some]
              rfl
            rw [hdu2]
            simp [hAf, hP]
          · have hwval : w = none := by
              rw [hwprot hP]
              exact (lookupKV_none_iff_hasKeyB_false cur kv.1).mpr hAf
            have hdu2 : (dropUndefined (mergeTopStep cur st kv).result).map Prod.fst
                = (dropUndefined st.result).map Prod.fst := by
              rw [hsetapp, hwval, dropUndefined_append, dropUndefined_singleton_none]
              simp
            rw [hdu2]
            simp [hAf, hP]

/-- C10 (amended): the serialized merged document's top-level key sequence
is the current document's keys in their original order, followed by the
incoming-only non-protected keys in their incoming order; incoming-only
protected keys are assigned the current document's (absent, undefined)
value and are dropped again at serialization. -/
theorem mergeDocs_key_order (cur inc : JsObj) (hndinc : (inc.map Prod.fst).Nodup) :
    (dropUndefined (mergeDocs cur inc).result).map Prod.fst
      = cur.map Prod.fst ++
        (inc.map Prod.fst).filter
          (fun x => !hasKeyB cur x && !PACKAGE_JSON_PROTECTED_FIELDS.elem x) := by
  unfold mergeDocs
  obtain ⟨hk, hd⟩ := mergeTop_fold_keys cur inc
    ⟨cur.map (fun p => (p.1, some p.2)), 0, []⟩ hndinc
    (by intro p hp hpf
        show hasKeyB (cur.map (fun q => (q.1, some q.2))) p.1 = false
        rw [hasKeyB_init]
        exact hpf)
    (by intro p hp hpc
        obtain ⟨q, hq, he⟩ := List.mem_map.mp hp
        rw [← he]
        rfl)
    (by intro x hx
        show hasKeyB (cur.map (fun q => (q.1, some q.2))) x = true
        rw [hasKeyB_init]
        exact hx)
  rw [hd]
  rw [show dropUndefined (⟨cur.map (fun p => (p.1, some p.2)), 0, []⟩ : TopMergeState).result
      = cur from dropUndefined_init cur]

/-- Counterexample for C10 as stated: `author` (protected) appears only in
the incoming document; the merge assigns it the current document's absent
value, so it is dropped at serialization instead of being appended, and
the merged key sequence is not current-keys followed by all incoming-only
keys. -/
theorem mergeDocs_key_order_protected_dropped :
    ((dropUndefined (mergeDocs [(S "x", JsonValue.num 1)]
        [(S "author", JsonValue.str (S "A"))]).result).map Prod.fst = [S "x"]) ∧
    ((dropUndefined (mergeDocs [(S "x", JsonValue.num 1)]
        [(S "author", JsonValue.str (S "A"))]).result).map Prod.fst
      ≠ [S "x", S "author"]) := by
  constructor
  · decide
  · decide

/-- Witness for the amended C10: a merge field, a protected incoming-only
key, and a custom incoming-only key together. -/
theorem mergeDocs_key_order_witness :
    ((([(S "scripts", JsonValue.obj [(S "dev", JsonValue.str (S "x"))]),
        (S "author", JsonValue.str (S "A")),
        (S "custom", JsonValue.num 1)] : JsObj).map Prod.fst).Nodup) ∧
    (dropUndefined (mergeDocs
        [(S "name", JsonValue.str (S "p")), (S "scripts", JsonValue.obj [])]
        [(S "scripts", JsonValue.obj [(S "dev", JsonValue.str (S "x"))]),
         (S "author", JsonValue.str (S "A")),
         (S "custom", JsonValue.num 1)]).result).map Prod.fst
      = ([(S "name", JsonValue.str (S "p")), (S "scripts", JsonValue.obj [])] : JsObj).map Prod.fst ++
        (([(S "scripts", JsonValue.obj [(S "dev", JsonValue.str (S "x"))]),
          (S "author", JsonValue.str (S "A")),
          (S "custom", JsonValue.num 1)] : JsObj).map Prod.fst).filter
          (fun x => !hasKeyB [(S "name", JsonValue.str (S "p")), (S "scripts", JsonValue.obj [])] x &&
            !PACKAGE_JSON_PROTECTED_FIELDS.elem x) :=
  ⟨by decide, mergeDocs_key_order _ _ (by decide)⟩

/-! ## C1: the update run with an empty diff set still rewrites the root
manifest -/

/-- One parsed entry of the template diff (`DiffEntry` in the source). -/
inductive DiffEntry where
  | add : Str → Str → DiffEntry
  | modify : Str → Str → DiffEntry
  | delete : Str → DiffEntry

/-- The project tree: a mapping from file paths to contents. -/
abbrev FileSys := List (Str × Str)

/-- `path.join` for the slash-separated paths the model builds. -/
def joinP (a b : Str) : Str := a ++ '/' :: b

mutual
/-- JS template-literal coercion of a JSON value (`${v}`). -/
def jsTemplateStrV : JsonValue → Str
  | JsonValue.null => S "null"
  | JsonValue.bool true => S "true"
  | JsonValue.bool false => S "false"
  | JsonValue.num n => intStr n
  | JsonValue.str s => s
  | JsonValue.arr xs => jsTemplateArr xs
  | JsonValue.obj _ => S "[object Object]"
  termination_by structural v => v

/-- JS `Array.prototype.toString`: comma-join, null elements print empty. -/
def jsTemplateArr : List JsonValue → Str
  | [] => []
  | [JsonValue.null] => []
  | [x] => jsTemplateStrV x
  | JsonValue.null :: y :: rest => ',' :: jsTemplateArr (y :: rest)
  | x :: y :: rest => jsTemplateStrV x ++ ',' :: jsTemplateArr (y :: rest)
  termination_by structural xs => xs
end

/-- JS template-literal coercion of a possibly-undefined value. -/
def jsTemplateStr : Option JsonValue → Str
  | none => S "undefined"
  | some v => jsTemplateStrV v

/-- Outcome of `updateProject` up to the empty-diff check. -/
inductive UpdateOutcome where
  | crashed : UpdateOutcome
  | noChanges : FileSys → List Str → UpdateOutcome
  | proceeded : FileSys → UpdateOutcome

/-- `updateProject` (source lines 518-571), modelled from the start of the
run to the empty-diff early return.  The external collaborators appear as
parameters: `parse` is `JSON.parse`, `diffs` is what `getRepoDiffs`
returned.  Before computing the diffs the function rewrites the root
manifest, replacing `whare.version` by the
`whareVersionPlaceholderDONOTUSE` marker (lines 531-551); the temp clone
directory lives under `os.tmpdir()`, outside the project tree, so it is
not part of `FileSys`.  With an empty diff set the run logs
"No changes found in template" and returns (lines 568-571) — without
restoring the manifest. -/
def updateProjectToDiffCheck (parse : Str → Option JsObj) (fs : FileSys)
    (projectPath : Str) (diffs : List DiffEntry) : UpdateOutcome :=
  match lookupKV fs (joinP projectPath (S "package.json")) with
  | none => UpdateOutcome.crashed
  | some pkgJsonContents =>
    match parse pkgJsonContents with
    | none => UpdateOutcome.crashed
    | some pkgJson =>
      let whareVal := lookupKV pkgJson (S "whare")
      let previousWhareVersion : Option JsonValue :=
        match whareVal with
        | some (JsonValue.obj o) => lookupKV o (S "version")
        | _ => none
      let pkgJson1 : JsObj :=
        match whareVal with
        | some (JsonValue.obj o) =>
            setKV pkgJson (S "whare") (JsonValue.obj (eraseKV o (S "version")))
        | _ => pkgJson
      let newWhare : JsObj :=
        setKV (spreadToObj (lookupKV pkgJson1 (S "whare")))
          (S "whareVersionPlaceholderDONOTUSE")
          (JsonValue.str ('<' :: jsTemplateStr previousWhareVersion ++ ['>']))
      let fs1 := setKV fs (joinP projectPath (S "package.json"))
        (stringifyP 0 (JsonValue.obj (setKV pkgJson1 (S "whare") (JsonValue.obj newWhare))))
      if diffs.length = 0 then
        UpdateOutcome.noChanges fs1 [S "No changes found in template"]
      else UpdateOutcome.proceeded fs1

/-- The root manifest of the C1 run. -/
def c1doc : JsObj :=
  [(S "name", JsonValue.str (S "p")),
   (S "whare", JsonValue.obj [(S "version", JsonValue.str (S "abc"))])]

/-- Its on-disk text. -/
def c1text : Str := stringifyP 0 (JsonValue.obj c1doc)

/-- The project tree before the run. -/
def c1fs : FileSys := [(joinP (S "/p") (S "package.json"), c1text)]

/-- The parser on the one text the run reads. -/
def c1parse : Str → Option JsObj :=
  fun s => if s = c1text then some c1doc else none

/-- C1 (showing the code bug): a run over an empty diff set ends at the
no-changes return, but the root manifest has already been rewritten (its
`whare.version` replaced by the placeholder key) and is not restored, so
the project tree is not byte-identical to its pre-run state. -/
theorem updateProject_noChanges_writes_manifest :
    ∃ fs1 logs,
      updateProjectToDiffCheck c1parse c1fs (S "/p") [] = UpdateOutcome.noChanges fs1 logs ∧
      lookupKV fs1 (joinP (S "/p") (S "package.json"))
        ≠ lookupKV c1fs (joinP (S "/p") (S "package.json")) := by
  refine ⟨_, _, rfl, ?_⟩
  decide

/-! ## C2: workspace resolution only looks at the project's own basename -/

/-- `WorkspaceInfo` (source lines 163-166); `packageName` is `undefined`
when the manifest has no `name` field. -/
structure WorkspaceInfo where
  path : Str
  packageName : Option JsonValue

/-- `getWorkspaceInfo` (source lines 168-184): `none` when the manifest
file is absent or fails to parse. -/
def getWorkspaceInfo (parse : Str → Option JsObj) (fs : FileSys)
    (workspacePath : Str) : Option WorkspaceInfo :=
  match lookupKV fs (joinP workspacePath (S "package.json")) with
  | none => none
  | some contents =>
    match parse contents with
    | none => none
    | some pkgJson => some ⟨workspacePath, lookupKV pkgJson (S "name")⟩

/-- JS strict equality `===` on the possibly-undefined `name` values.  Two
objects or arrays parsed from different files are distinct references and
never strictly equal. -/
def jsStrictEqOpt : Option JsonValue → Option JsonValue → Bool
  | none, none => true
  | some JsonValue.null, some JsonValue.null => true
  | some (JsonValue.bool a), some (JsonValue.bool b) => decide (a = b)
  | some (JsonValue.num a), some (JsonValue.num b) => decide (a = b)
  | some (JsonValue.str a), some (JsonValue.str b) => decide (a = b)
  | _, _ => false

/-- The candidate loop of `findMatchingTemplateWorkspace` (source lines
196-201): `templateWorkspace?.packageName === workspace.packageName`. -/
def findMatchLoop (parse : Str → Option JsObj) (fs : FileSys)
    (pname : Option JsonValue) : List Str → Option Str
  | [] => none
  | p :: rest =>
      let tpn : Option JsonValue :=
        match getWorkspaceInfo parse fs p with
        | none => none
        | some tw => tw.packageName
      if jsStrictEqOpt tpn pname then some p else findMatchLoop parse fs pname rest

/-- `findMatchingTemplateWorkspace` (source lines 186-204): the candidate
paths are built from the PROJECT workspace's directory basename. -/
def findMatchingTemplateWorkspace (parse : Str → Option JsObj) (fs : FileSys)
    (workspace : WorkspaceInfo) (tempDir : Str) : Option Str :=
  findMatchLoop parse fs workspace.packageName
    [joinP (joinP tempDir (S "packages")) (baseName workspace.path),
     joinP (joinP tempDir (S "apps")) (baseName workspace.path)]

/-- C2 (amended): resolution only inspects the two candidate paths derived
from the project workspace's own directory basename; when the template
workspace at `packages/<basename>` exists and its manifest name strictly
equals the project workspace's, it is returned. -/
theorem findMatching_same_basename (parse : Str → Option JsObj) (fs : FileSys)
    (ws : WorkspaceInfo) (tempDir : Str) :
    (∀ tw, getWorkspaceInfo parse fs
        (joinP (joinP tempDir (S "packages")) (baseName ws.path)) = some tw →
      jsStrictEqOpt tw.packageName ws.packageName = true →
      findMatchingTemplateWorkspace parse fs ws tempDir
        = some (joinP (joinP tempDir (S "packages")) (baseName ws.path))) ∧
    (∀ p, findMatchingTemplateWorkspace parse fs ws tempDir = some p →
      p = joinP (joinP tempDir (S "packages")) (baseName ws.path) ∨
      p = joinP (joinP tempDir (S "apps")) (baseName ws.path)) := by
  constructor
  · intro tw h1 h2
    unfold findMatchingTemplateWorkspace findMatchLoop
    rw [h1]
    rw [if_pos h2]
  · intro p hp
    unfold findMatchingTemplateWorkspace findMatchLoop at hp
    by_cases hc1 : jsStrictEqOpt
        (match getWorkspaceInfo parse fs
            (joinP (joinP tempDir (S "packages")) (baseName ws.path)) with
          | none => none
          | some tw => tw.packageName) ws.packageName = true
    · rw [if_pos hc1] at hp
      exact Or.inl (by injection hp with h; exact h.symm)
    · rw [if_neg hc1] at hp
      unfold findMatchLoop at hp
      by_cases hc2 : jsStrictEqOpt
          (match getWorkspaceInfo parse fs
              (joinP (joinP tempDir (S "apps")) (baseName ws.path)) with
            | none => none
            | some tw => tw.packageName) ws.packageName = true
      · rw [if_pos hc2] at hp
        exact Or.inr (by injection hp with h; exact h.symm)
      · rw [if_neg hc2] at hp
        unfold findMatchLoop at hp
        cases hp

/-- The template workspace manifest of the C2 scenario. -/
def c2tdoc : JsObj := [(S "name", JsonValue.str (S "my-lib"))]

/-- Its on-disk text. -/
def c2text : Str := stringifyP 0 (JsonValue.obj c2tdoc)

/-- The template tree: the counterpart lives at `packages/utils`. -/
def c2fs : FileSys :=
  [(joinP (joinP (joinP (S "/t") (S "packages")) (S "utils")) (S "package.json"), c2text)]

/-- The parser on the one text the scenario reads. -/
def c2parse : Str → Option JsObj :=
  fun s => if s = c2text then some c2tdoc else none

/-- Counterexample for C2 as stated: the template counterpart `utils` has
the same manifest name `my-lib` as the project workspace `lib`, but its
directory basename differs, so resolution returns nothing (falling back),
not the counterpart. -/
theorem findMatching_rename_not_resolved :
    getWorkspaceInfo c2parse c2fs (joinP (joinP (S "/t") (S "packages")) (S "utils"))
      = some ⟨joinP (joinP (S "/t") (S "packages")) (S "utils"),
              some (JsonValue.str (S "my-lib"))⟩ ∧
    baseName (S "/proj/packages/lib") ≠ S "utils" ∧
    jsStrictEqOpt (some (JsonValue.str (S "my-lib"))) (some (JsonValue.str (S "my-lib"))) = true ∧
    findMatchingTemplateWorkspace c2parse c2fs
      ⟨S "/proj/packages/lib", some (JsonValue.str (S "my-lib"))⟩ (S "/t") = none :=
  ⟨rfl, by decide, rfl, rfl⟩

/-- Witness for the amended C2: same basename, matching name, resolved. -/
theorem findMatching_same_basename_witness :
    getWorkspaceInfo c2parse c2fs
      (joinP (joinP (S "/t") (S "packages"))
        (baseName (S "/proj/packages/utils")))
      = some ⟨joinP (joinP (S "/t") (S "packages")) (S "utils"),
              some (JsonValue.str (S "my-lib"))⟩ ∧
    jsStrictEqOpt (some (JsonValue.str (S "my-lib"))) (some (JsonValue.str (S "my-lib"))) = true ∧
    findMatchingTemplateWorkspace c2parse c2fs
      ⟨S "/proj/packages/utils", some (JsonValue.str (S "my-lib"))⟩ (S "/t")
      = some (joinP (joinP (S "/t") (S "packages"))
          (baseName (S "/proj/packages/utils"))) :=
  ⟨rfl, rfl,
    (findMatching_same_basename c2parse c2fs
      ⟨S "/proj/packages/utils", some (JsonValue.str (S "my-lib"))⟩ (S "/t")).1
      ⟨joinP (joinP (S "/t") (S "packages")) (S "utils"),
        some (JsonValue.str (S "my-lib"))⟩ rfl rfl⟩

/-! ## C5: string-scanning lemmas for the conflict renderer -/

theorem prefB_iff (p s : Str) : prefB p s = true ↔ ∃ t, s = p ++ t := by
  induction p generalizing s with
  | nil => simp [prefB]
  | cons a p ih =>
      cases s with
      | nil =>
          simp [prefB]
      | cons b s =>
          rw [prefB, Bool.and_eq_true]
          constructor
          · rintro ⟨hab, hps⟩
            obtain ⟨t, rfl⟩ := (ih s).mp hps
            exact ⟨t, by rw [of_decide_eq_true hab]; rfl⟩
          · rintro ⟨t, ht⟩
            rw [List.cons_append] at ht
            injection ht with h1 h2
            exact ⟨decide_eq_true h1.symm, (ih s).mpr ⟨t, h2⟩⟩

theorem prefB_append_self (p t : Str) : prefB p (p ++ t) = true :=
  (prefB_iff p (p ++ t)).mpr ⟨t, rfl⟩

theorem subB_iff (p s : Str) : subB p s = true ↔ ∃ u t, s = u ++ p ++ t := by
  induction s with
  | nil =>
      cases p with
      | nil => simp [subB, prefB]
      | cons a p =>
          simp only [subB, prefB]
          constructor
          · intro h; cases h
          · rintro ⟨u, t, ht⟩
            exact absurd (congrArg List.length ht) (by simp; omega)
  | cons c s ih =>
      rw [subB, Bool.or_eq_true]
      constructor
      · rintro (h | h)
        · obtain ⟨t, ht⟩ := (prefB_iff p (c :: s)).mp h
          exact ⟨[], t, by simpa using ht⟩
        · obtain ⟨u, t, ht⟩ := ih.mp h
          exact ⟨c :: u, t, by rw [ht]; rfl⟩
      · rintro ⟨u, t, ht⟩
        cases u with
        | nil =>
            left
            exact (prefB_iff p (c :: s)).mpr ⟨t, by simpa using ht⟩
        | cons d u =>
            right
            rw [List.cons_append, List.cons_append] at ht
            injection ht with h1 h2
            exact ih.mpr ⟨u, t, h2⟩

theorem subB_append_mid {q p : Str} (h : subB q p = true) (u t : Str) :
    subB q (u ++ p ++ t) = true := by
  obtain ⟨x, y, hxy⟩ := (subB_iff q p).mp h
  refine (subB_iff q (u ++ p ++ t)).mpr ⟨u ++ x, y ++ t, ?_⟩
  rw [hxy]
  simp [List.append_assoc]

theorem subB_trans_of_prefB {q p t : Str} (hpt : prefB p t = true)
    (hq : subB q p = true) : subB q t = true := by
  obtain ⟨r, rfl⟩ := (prefB_iff p t).mp hpt
  obtain ⟨x, y, hxy⟩ := (subB_iff q p).mp hq
  refine (subB_iff q (p ++ r)).mpr ⟨x, y ++ r, ?_⟩
  rw [hxy]
  simp [List.append_assoc]

theorem mem_of_prefB {p s : Str} (h : prefB p s = true) : ∀ c ∈ p, c ∈ s := by
  obtain ⟨t, rfl⟩ := (prefB_iff p s).mp h
  intro c hc
  exact List.mem_append.mpr (Or.inl hc)

/-- Whether a string contains two adjacent colons. -/
def hasAdjColon : Str → Bool
  | [] => false
  | [_] => false
  | a :: b :: rest => (a = ':' && b = ':') || hasAdjColon (b :: rest)

theorem subB_colcol_eq_hasAdjColon (s : Str) : subB (S "::") s = hasAdjColon s := by
  induction s with
  | nil => rfl
  | cons c s ih =>
      cases s with
      | nil =>
          show (prefB (S "::") [c] || subB (S "::") []) = false
          simp [prefB, subB]
      | cons d s =>
          show (prefB (S "::") (c :: d :: s) || subB (S "::") (d :: s))
            = ((c = ':' && d = ':') || hasAdjColon (d :: s))
          rw [ih]
          have h1 : prefB (S "::") (c :: d :: s) = (decide (c = ':') && decide (d = ':')) := by
            simp [prefB, S, eq_comm, Bool.and_assoc]
          rw [h1]

theorem hasAdjColon_cf_append {x : Str} (hx : colonFree x) (y : Str) :
    hasAdjColon (x ++ y) = hasAdjColon y := by
  induction x with
  | nil => rfl
  | cons c x ih =>
      have hc : c ≠ ':' := hx c (List.mem_cons_self _ _)
      have hx' : colonFree x := fun a ha => hx a (List.mem_cons_of_mem _ ha)
      cases x with
      | nil =>
          cases y with
          | nil => rfl
          | cons d y =>
              show ((c = ':' && d = ':') || hasAdjColon (d :: y)) = hasAdjColon (d :: y)
              rw [show (decide (c = ':')) = false from decide_eq_false hc]
              rfl
      | cons e x' =>
          show ((c = ':' && e = ':') || hasAdjColon ((e :: x') ++ y)) = hasAdjColon y
          rw [ih hx']
          rw [show (decide (c = ':')) = false from decide_eq_false hc]
          rfl

theorem hasAdjColon_of_colonFree {x : Str} (hx : colonFree x) : hasAdjColon x = false := by
  have := hasAdjColon_cf_append hx []
  rwa [List.append_nil] at this

theorem hasAdjColon_colon_cons {y : Str} (hy : ∀ h : y ≠ [], y.head h ≠ ':') :
    hasAdjColon (':' :: y) = hasAdjColon y := by
  cases y with
  | nil => rfl
  | cons d y =>
      show ((':' = ':' && d = ':') || hasAdjColon (d :: y)) = hasAdjColon (d :: y)
      have hd : d ≠ ':' := by
        have := hy (by simp)
        simpa using this
      rw [show (decide (d = ':')) = false from decide_eq_false hd]
      simp

theorem not_subB_of_no_adjColon {pat s : Str} (hadj : hasAdjColon s = false)
    (hcc : subB (S "::") pat = true) : subB pat s = false := by
  cases hsub : subB pat s
  · rfl
  · exfalso
    obtain ⟨u, t, rfl⟩ := (subB_iff pat s).mp hsub
    have : subB (S "::") (u ++ pat ++ t) = true := subB_append_mid hcc u t
    rw [subB_colcol_eq_hasAdjColon] at this
    rw [this] at hadj
    cases hadj

/-- Plain manifest-text characters: ASCII letters, digits, dash and
underscore — what sub-keys and version strings are made of. -/
def plainChar (c : Char) : Bool :=
  (97 ≤ c.toNat && c.toNat ≤ 122) || (65 ≤ c.toNat && c.toNat ≤ 90) ||
  (48 ≤ c.toNat && c.toNat ≤ 57) || c = '-' || c = '_'

/-- A string of plain characters only. -/
def allPlain (s : Str) : Prop := ∀ c ∈ s, plainChar c = true

instance allPlainDec (s : Str) : Decidable (allPlain s) := by
  unfold allPlain
  infer_instance

theorem plain_ne_of_not_plain {c x : Char} (hc : plainChar c = true)
    (hx : plainChar x = false) : c ≠ x :=
  fun h => by rw [h, hx] at hc; cases hc

theorem not_mem_of_allPlain {s : Str} (h : allPlain s) {x : Char}
    (hx : plainChar x = false) : x ∉ s :=
  fun hm => by have hp := h x hm; rw [hx] at hp; cases hp

theorem plain_colonFree {s : Str} (h : allPlain s) : colonFree s :=
  fun c hc => plain_ne_of_not_plain (h c hc) (by decide)

theorem plain_toNat_ge {c : Char} (h : plainChar c = true) : 45 ≤ c.toNat := by
  unfold plainChar at h
  rcases Bool.or_eq_true_iff.mp h with h | h
  · rcases Bool.or_eq_true_iff.mp h with h | h
    · rcases Bool.or_eq_true_iff.mp h with h | h
      · rcases Bool.or_eq_true_iff.mp h with h | h
        · rw [Bool.and_eq_true] at h
          have := of_decide_eq_true h.1
          omega
        · rw [Bool.and_eq_true] at h
          have := of_decide_eq_true h.1
          omega
      · rw [Bool.and_eq_true] at h
        have := of_decide_eq_true h.1
        omega
    · have := of_decide_eq_true h
      rw [this]
      decide
  · have := of_decide_eq_true h
    rw [this]
    decide

theorem escapeChar_plain {c : Char} (h : plainChar c = true) : escapeChar c = [c] := by
  have hge : 45 ≤ c.toNat := plain_toNat_ge h
  unfold escapeChar
  rw [if_neg (plain_ne_of_not_plain h (by decide)),
      if_neg (plain_ne_of_not_plain h (by decide)),
      if_neg (plain_ne_of_not_plain h (by decide)),
      if_neg (plain_ne_of_not_plain h (by decide)),
      if_neg (plain_ne_of_not_plain h (by decide)),
      if_neg (plain_ne_of_not_plain h (by decide)),
      if_neg (plain_ne_of_not_plain h (by decide)),
      if_neg (by omega)]

theorem escapeStr_append (x y : Str) : escapeStr (x ++ y) = escapeStr x ++ escapeStr y := by
  induction x with
  | nil => rfl
  | cons c x ih =>
      rw [List.cons_append, escapeStr, escapeStr, ih, List.append_assoc]

theorem escapeStr_plain {s : Str} (h : allPlain s) : escapeStr s = s := by
  induction s with
  | nil => rfl
  | cons c x ih =>
      rw [escapeStr, escapeChar_plain (h c (List.mem_cons_self _ _)),
        ih (fun a ha => h a (List.mem_cons_of_mem _ ha))]
      rfl

theorem quoteStr_plain {s : Str} (h : allPlain s) : quoteStr s = '"' :: s ++ ['"'] := by
  unfold quoteStr
  rw [escapeStr_plain h]

theorem quote_suffix_cases {x : Str} (hx : '"' ∉ x) {y u t : Str}
    (h : x ++ y = u ++ '"' :: t) : ∃ u2, y = u2 ++ '"' :: t := by
  induction x generalizing u with
  | nil => exact ⟨u, by simpa using h⟩
  | cons c x ih =>
      cases u with
      | nil =>
          rw [List.nil_append, List.cons_append] at h
          injection h with h1 h2
          exact absurd (h1 ▸ List.mem_cons_self c x) hx
      | cons d u =>
          rw [List.cons_append, List.cons_append] at h
          injection h with h1 h2
          exact ih (fun hm => hx (List.mem_cons_of_mem _ hm)) h2

theorem quote_head_cases {y u t : Str} (h : '"' :: y = u ++ '"' :: t) :
    (t = y) ∨ ∃ u2, y = u2 ++ '"' :: t := by
  cases u with
  | nil =>
      rw [List.nil_append] at h
      injection h with h1 h2
      exact Or.inl h2.symm
  | cons d u =>
      rw [List.cons_append] at h
      injection h with h1 h2
      exact Or.inr ⟨u, h2⟩

/-- Where a `"…` pattern can sit inside a four-quote line: right after one
of the four quotes. -/
theorem valLine_tails {A B C D E : Str} (hA : '"' ∉ A) (hB : '"' ∉ B)
    (hC : '"' ∉ C) (hD : '"' ∉ D) (hE : '"' ∉ E) {pt : Str}
    (h : subB ('"' :: pt) (A ++ '"' :: (B ++ '"' :: (C ++ '"' :: (D ++ '"' :: E)))) = true) :
    prefB pt (B ++ '"' :: (C ++ '"' :: (D ++ '"' :: E))) = true ∨
    prefB pt (C ++ '"' :: (D ++ '"' :: E)) = true ∨
    prefB pt (D ++ '"' :: E) = true ∨
    prefB pt E = true := by
  obtain ⟨u, t0, hsplit⟩ := (subB_iff _ _).mp h
  rw [List.append_assoc, List.cons_append] at hsplit
  obtain ⟨u1, h1⟩ := quote_suffix_cases hA hsplit
  rcases quote_head_cases h1 with ht | ⟨u2, h2⟩
  · exact Or.inl ((prefB_iff _ _).mpr ⟨t0, ht.symm⟩)
  · obtain ⟨u3, h3⟩ := quote_suffix_cases hB h2
    rcases quote_head_cases h3 with ht | ⟨u4, h4⟩
    · exact Or.inr (Or.inl ((prefB_iff _ _).mpr ⟨t0, ht.symm⟩))
    · obtain ⟨u5, h5⟩ := quote_suffix_cases hC h4
      rcases quote_head_cases h5 with ht | ⟨u6, h6⟩
      · exact Or.inr (Or.inr (Or.inl ((prefB_iff _ _).mpr ⟨t0, ht.symm⟩)))
      · obtain ⟨u7, h7⟩ := quote_suffix_cases hD h6
        rcases quote_head_cases h7 with ht | ⟨u8, h8⟩
        · exact Or.inr (Or.inr (Or.inr ((prefB_iff _ _).mpr ⟨t0, ht.symm⟩)))
        · exfalso
          apply hE
          rw [h8]
          exact List.mem_append.mpr (Or.inr (List.mem_cons_self _ _))

theorem joinNl_append (xs ys : List Str) (hxs : xs ≠ []) (hys : ys ≠ []) :
    joinNl (xs ++ ys) = joinNl xs ++ '\n' :: joinNl ys := by
  induction xs with
  | nil => cases hxs rfl
  | cons x xs ih =>
      cases xs with
      | nil =>
          cases ys with
          | nil => cases hys rfl
          | cons y ys =>
              rw [List.singleton_append]
              rfl
      | cons x2 xs2 =>
          rw [List.cons_append]
          show x ++ '\n' :: joinNl ((x2 :: xs2) ++ ys) = joinNl (x :: x2 :: xs2) ++ '\n' :: joinNl ys
          rw [ih (by simp)]
          show _ = (x ++ '\n' :: joinNl (x2 :: xs2)) ++ '\n' :: joinNl ys
          simp [List.append_assoc]

theorem splitOnC_of_not_mem {c : Char} {l : Str} (h : c ∉ l) : splitOnC c l = [l] := by
  induction l with
  | nil => rfl
  | cons d l ih =>
      unfold splitOnC
      rw [if_neg (fun he => h (by rw [← he]; exact List.mem_cons_self d l))]
      rw [ih (fun hm => h (List.mem_cons_of_mem _ hm))]

theorem splitOnC_append_sep {c : Char} {l : Str} (h : c ∉ l) (t : Str) :
    splitOnC c (l ++ c :: t) = l :: splitOnC c t := by
  induction l with
  | nil =>
      rw [List.nil_append]
      conv_lhs => unfold splitOnC
      rw [if_pos rfl]
  | cons d l ih =>
      rw [List.cons_append]
      conv_lhs => unfold splitOnC
      rw [if_neg (fun he => h (by rw [← he]; exact List.mem_cons_self d l))]
      rw [ih (fun hm => h (List.mem_cons_of_mem _ hm))]

theorem splitOnC_joinNl {ls : List Str} (hne : ls ≠ []) (hfree : ∀ l ∈ ls, '\n' ∉ l) :
    splitOnC '\n' (joinNl ls) = ls := by
  induction ls with
  | nil => cases hne rfl
  | cons l ls ih =>
      cases ls with
      | nil => exact splitOnC_of_not_mem (hfree l (List.mem_cons_self _ _))
      | cons l2 ls2 =>
          show splitOnC '\n' (l ++ '\n' :: joinNl (l2 :: ls2)) = l :: l2 :: ls2
          rw [splitOnC_append_sep (hfree l (List.mem_cons_self _ _))]
          rw [ih (by simp) (fun x hx => hfree x (List.mem_cons_of_mem _ hx))]

theorem dropWhile_sp (n : Nat) (l : Str) :
    List.dropWhile isSpaceB (sp n ++ l) = List.dropWhile isSpaceB l := by
  induction n with
  | zero => rfl
  | succ n ih =>
      rw [show sp (n + 1) = ' ' :: sp n from by unfold sp; rw [List.replicate_succ]]
      rw [List.cons_append]
      rw [List.dropWhile_cons_of_pos (by decide)]
      exact ih

theorem trimS_sp_quote_comma (x : Str) :
    trimS (sp 4 ++ '"' :: x ++ [',']) = '"' :: x ++ [','] := by
  unfold trimS
  rw [List.append_assoc, dropWhile_sp, List.cons_append]
  rw [List.dropWhile_cons_of_neg (by decide)]
  rw [show ('"' :: (x ++ [','])).reverse = ',' :: (x.reverse ++ ['"']) from by simp]
  rw [List.dropWhile_cons_of_neg (by decide)]
  simp

theorem removeLastComma_append_comma (y : Str) : removeLastComma (y ++ [',']) = y := by
  unfold removeLastComma
  rw [show (y ++ [',']).reverse = ',' :: y.reverse from by simp]
  rw [show removeFirstComma (',' :: y.reverse) = y.reverse from by unfold removeFirstComma; rw [if_pos rfl]]
  exact List.reverse_reverse y

theorem matchMarkerAt_not_quote {tag : Str} {c : Char} (hc : c ≠ '"') (l : Str) :
    matchMarkerAt tag (c :: l) = none := by
  simp only [matchMarkerAt]
  rw [if_neg hc]

theorem takeWhile_not_quote {k : Str} (hkq : '"' ∉ k) (z : Str) :
    (k ++ '"' :: z).takeWhile (fun c => !(c = '"')) = k := by
  induction k with
  | nil =>
      rw [List.nil_append]
      rw [List.takeWhile_cons_of_neg (by decide)]
  | cons d k ih =>
      have hd : d ≠ '"' := fun he => hkq (by rw [he]; exact List.mem_cons_self _ _)
      rw [List.cons_append]
      rw [List.takeWhile_cons_of_pos (by simp [hd])]
      rw [ih (fun hm => hkq (List.mem_cons_of_mem _ hm))]

theorem drop_len_succ_append (k : Str) (c : Char) (z : Str) :
    (k ++ c :: z).drop (k.length + 1) = z := by
  induction k with
  | nil => rfl
  | cons d k ih =>
      rw [List.cons_append]
      show (k ++ c :: z).drop (k.length + 1) = z
      exact ih

theorem matchMarkerAt_match {tag k : Str} (hk : k ≠ []) (hkq : '"' ∉ k) (z : Str) :
    matchMarkerAt tag ('"' :: (tag ++ (k ++ '"' :: z))) = some (('"' :: k) ++ '"' :: z) := by
  have hcap : capturedAt tag (tag ++ (k ++ '"' :: z)) = k := by
    unfold capturedAt
    rw [List.drop_left]
    exact takeWhile_not_quote hkq z
  have hemp : k.isEmpty = false := by
    cases k with
    | nil => exact absurd rfl hk
    | cons a b => rfl
  simp only [matchMarkerAt, if_true]
  rw [if_pos (prefB_append_self tag _)]
  rw [hcap, List.drop_left, List.drop_left, drop_len_succ_append]
  rw [if_pos (by rw [hemp]; simp [prefB])]

theorem replaceMarkerKey_skip {x : Str} (hx : '"' ∉ x) (tag y : Str) :
    replaceMarkerKey tag (x ++ y) = x ++ replaceMarkerKey tag y := by
  induction x with
  | nil => rfl
  | cons c x ih =>
      have hc : c ≠ '"' := fun he => hx (by rw [he]; exact List.mem_cons_self _ _)
      rw [List.cons_append]
      conv_lhs => unfold replaceMarkerKey
      rw [matchMarkerAt_not_quote hc]
      rw [ih (fun hm => hx (List.mem_cons_of_mem _ hm))]
      rfl

theorem replaceMarkerKey_at_quote {tag k : Str} (hk : k ≠ []) (hkq : '"' ∉ k) (z : Str) :
    replaceMarkerKey tag ('"' :: (tag ++ (k ++ '"' :: z))) = ('"' :: k) ++ '"' :: z := by
  conv_lhs => unfold replaceMarkerKey
  rw [matchMarkerAt_match hk hkq]

/-! ## Line shapes of the rendered single-conflict merge (for C5) -/

/-- A sub-object entry with a string value. -/
def strEntry (p : Str × Str) : Str × JsonValue := (p.1, JsonValue.str p.2)

/-- The serialized member line of a string-valued entry at depth 2 (indent
4), before any comma is appended. -/
def rawSib (p : Str × Str) : Str := sp 4 ++ quoteStr p.1 ++ ':' :: ' ' :: quoteStr p.2

/-- A sibling line inside the rendered output: serialized entry plus the
member comma. -/
def sibLineC (p : Str × Str) : Str := rawSib p ++ [',']

/-- A rendered conflict-branch value line: the original key and a string
value, no trailing comma. -/
def outValLine (k v : Str) : Str := sp 4 ++ '"' :: k ++ '"' :: ':' :: ' ' :: '"' :: v ++ ['"']

/-- The expected rendered lines of a merge whose single divergent
merge-candidate sub-key `k` went from `a` to `b`, with the unchanged
sibling entries `sibs`. -/
def renderOut (sibs : List (Str × Str)) (k a b : Str) : List Str :=
  [S "\x7b", S "  \"scripts\": \x7b"] ++ sibs.map sibLineC ++
    [S "<<<<<<< Local Package", outValLine k a, S "=======",
     outValLine k b ++ S " // From template", S ">>>>>>> Template",
     S "  \x7d", S "\x7d"]

/-- Append the member comma to every line but the last. -/
def commaAll : List Str → List Str
  | [] => []
  | [x] => [x]
  | x :: y :: rest => (x ++ [',']) :: commaAll (y :: rest)

theorem commaAll_ne_nil {xs : List Str} (h : xs ≠ []) : commaAll xs ≠ [] := by
  cases xs with
  | nil => exact absurd rfl h
  | cons x xs =>
      cases xs with
      | nil => simp [commaAll]
      | cons y rest => simp [commaAll]

theorem joinNl_cons_ne_nil {ys : List Str} (h : ys ≠ []) (x : Str) :
    joinNl (x :: ys) = x ++ '\n' :: joinNl ys := by
  cases ys with
  | nil => exact absurd rfl h
  | cons y rest => rfl

theorem nlCommaJoin_eq_joinNl_commaAll (xs : List Str) :
    nlCommaJoin xs = joinNl (commaAll xs) := by
  induction xs with
  | nil => rfl
  | cons x xs ih =>
      cases xs with
      | nil => rfl
      | cons y rest =>
          show x ++ ',' :: '\n' :: nlCommaJoin (y :: rest) = joinNl ((x ++ [',']) :: commaAll (y :: rest))
          rw [joinNl_cons_ne_nil (commaAll_ne_nil (by simp))]
          rw [← ih]
          simp

theorem commaAll_append {ys : List Str} (hys : ys ≠ []) (xs : List Str) :
    commaAll (xs ++ ys) = xs.map (fun x => x ++ [',']) ++ commaAll ys := by
  induction xs with
  | nil => rfl
  | cons x xs ih =>
      cases xs with
      | nil =>
          cases ys with
          | nil => exact absurd rfl hys
          | cons y rest =>
              show commaAll (x :: y :: rest) = _
              rw [commaAll]
              simp [ih]
      | cons x2 xs2 =>
          show commaAll (x :: (x2 :: xs2) ++ ys) = _
          rw [show (x :: (x2 :: xs2) ++ ys) = x :: (x2 :: (xs2 ++ ys)) from by simp]
          rw [commaAll]
          have := ih
          rw [show (x2 :: xs2) ++ ys = x2 :: (xs2 ++ ys) from by simp] at this
          rw [this]
          simp

theorem stringifyPObj_append (ind : Nat) (xs ys : JsObj) :
    stringifyPObj ind (xs ++ ys) = stringifyPObj ind xs ++ stringifyPObj ind ys := by
  induction xs with
  | nil => rfl
  | cons kv xs ih =>
      obtain ⟨k, v⟩ := kv
      rw [List.cons_append]
      rw [stringifyPObj, stringifyPObj]
      rw [ih]
      rfl

theorem stringifyPObj_map_strEntry (sibs : List (Str × Str)) :
    stringifyPObj 4 (sibs.map strEntry) = sibs.map rawSib := by
  induction sibs with
  | nil => rfl
  | cons p sibs ih =>
      obtain ⟨k, v⟩ := p
      rw [List.map_cons, List.map_cons]
      rw [show strEntry (k, v) = (k, JsonValue.str v) from rfl]
      rw [stringifyPObj]
      rw [ih]
      rfl

theorem stringifyP_obj_cons (ind : Nat) (kv : Str × JsonValue) (kvs : JsObj) :
    stringifyP ind (JsonValue.obj (kv :: kvs)) =
      '\x7b' :: '\n' :: nlCommaJoin (stringifyPObj (ind + 2) (kv :: kvs)) ++
        '\n' :: sp ind ++ ['\x7d'] := by
  rfl

theorem stringifyP_obj_ne_nil {kvs : JsObj} (h : kvs ≠ []) (ind : Nat) :
    stringifyP ind (JsonValue.obj kvs) =
      '\x7b' :: '\n' :: nlCommaJoin (stringifyPObj (ind + 2) kvs) ++
        '\n' :: sp ind ++ ['\x7d'] := by
  cases kvs with
  | nil => exact absurd rfl h
  | cons kv kvs => exact stringifyP_obj_cons ind kv kvs

theorem stringifyPObj_ne_nil {M : JsObj} (h : M ≠ []) (ind : Nat) :
    stringifyPObj ind M ≠ [] := by
  cases M with
  | nil => exact absurd rfl h
  | cons kv r =>
      obtain ⟨k, v⟩ := kv
      simp [stringifyPObj]

theorem stringifyPObj_markerBlock (k a b : Str) :
    stringifyPObj 4 (markerBlock 0 k (JsonValue.str a) (JsonValue.str b)) =
      [S "    \"conf-start::00\": \"\"",
       sp 4 ++ quoteStr (S "curr::" ++ k) ++ ':' :: ' ' :: quoteStr a,
       S "    \"conf-mid::00\": \"\"",
       sp 4 ++ quoteStr (S "tmpl::" ++ k) ++ ':' :: ' ' :: quoteStr b,
       S "    \"conf-end::00\": \"\""] := by
  rw [markerBlock]
  rw [stringifyPObj, stringifyPObj, stringifyPObj, stringifyPObj, stringifyPObj, stringifyPObj]
  rw [show stringifyP 4 (JsonValue.str a) = quoteStr a from rfl]
  rw [show stringifyP 4 (JsonValue.str b) = quoteStr b from rfl]
  rw [show sp 4 ++ quoteStr (S "conf-start::" ++ padStart2 (natDigits 0)) ++
      ':' :: ' ' :: stringifyP 4 (JsonValue.str []) = S "    \"conf-start::00\": \"\"" from by decide]
  rw [show sp 4 ++ quoteStr (S "conf-mid::" ++ padStart2 (natDigits 0)) ++
      ':' :: ' ' :: stringifyP 4 (JsonValue.str []) = S "    \"conf-mid::00\": \"\"" from by decide]
  rw [show sp 4 ++ quoteStr (S "conf-end::" ++ padStart2 (natDigits 0)) ++
      ':' :: ' ' :: stringifyP 4 (JsonValue.str []) = S "    \"conf-end::00\": \"\"" from by decide]

theorem stringify_doc {M : JsObj} (hM : M ≠ []) :
    stringifyP 0 (JsonValue.obj [(S "scripts", JsonValue.obj M)]) =
      joinNl ([S "\x7b", S "  \"scripts\": \x7b"] ++
        commaAll (stringifyPObj 4 M) ++ [S "  \x7d", S "\x7d"]) := by
  have hL : commaAll (stringifyPObj 4 M) ≠ [] :=
    commaAll_ne_nil (stringifyPObj_ne_nil hM 4)
  rw [stringifyP_obj_cons]
  rw [stringifyPObj, stringifyPObj]
  rw [stringifyP_obj_ne_nil hM]
  rw [show (2 : Nat) + 2 = 4 from rfl]
  rw [nlCommaJoin]
  rw [nlCommaJoin_eq_joinNl_commaAll]
  rw [show ([S "\x7b", S "  \"scripts\": \x7b"] ++
        commaAll (stringifyPObj 4 M) ++ [S "  \x7d", S "\x7d"]) =
      S "\x7b" :: S "  \"scripts\": \x7b" ::
        (commaAll (stringifyPObj 4 M) ++ [S "  \x7d", S "\x7d"]) from by simp]
  rw [joinNl_cons_ne_nil (by simp)]
  rw [joinNl_cons_ne_nil (by simp [hL])]
  rw [joinNl_append _ _ hL (by simp)]
  rw [show joinNl [S "  \x7d", S "\x7d"] = S "  \x7d" ++ '\n' :: S "\x7d" from rfl]
  simp [S, sp, quoteStr, escapeStr, escapeChar]

theorem mergeDocs_single_conflict (subPre subPost : List (Str × Str)) (k a b : Str)
    (hsibk : ∀ p ∈ subPre ++ subPost, p.1 ≠ k)
    (hcf : ∀ p ∈ subPre ++ subPost, colonFree p.1)
    (hab : hasValueChanged (some (JsonValue.str a)) (some (JsonValue.str b)) = true) :
    (mergeDocs
        [(S "scripts", JsonValue.obj (subPre.map strEntry ++ (k, JsonValue.str a) :: subPost.map strEntry))]
        [(S "scripts", JsonValue.obj [(k, JsonValue.str b)])]).result =
      [(S "scripts", some (JsonValue.obj ((subPre.map strEntry ++ subPost.map strEntry) ++
        markerBlock 0 k (JsonValue.str a) (JsonValue.str b))))] := by
  unfold mergeDocs
  rw [List.foldl_cons, List.foldl_nil]
  unfold mergeTopStep
  dsimp only
  rw [if_neg (by decide)]
  rw [if_pos (by rfl)]
  rw [show lookupKV
      [(S "scripts", JsonValue.obj (subPre.map strEntry ++ (k, JsonValue.str a) :: subPost.map strEntry))]
      (S "scripts") =
      some (JsonValue.obj (subPre.map strEntry ++ (k, JsonValue.str a) :: subPost.map strEntry)) from by
    rw [lookupKV, if_pos rfl]]
  rw [show spreadToObj (some (JsonValue.obj (subPre.map strEntry ++ (k, JsonValue.str a) :: subPost.map strEntry))) =
      subPre.map strEntry ++ (k, JsonValue.str a) :: subPost.map strEntry from rfl]
  rw [show entriesOf (JsonValue.obj [(k, JsonValue.str b)]) = [(k, JsonValue.str b)] from rfl]
  rw [mergeSub_divergent_appends (subPre.map strEntry) (subPost.map strEntry) k
      (JsonValue.str a) (JsonValue.str b) 0
      (fun p hp => by
        obtain ⟨q, hq, rfl⟩ := List.mem_map.mp hp
        exact hsibk q (List.mem_append.mpr (Or.inl hq)))
      (fun p hp => by
        obtain ⟨q, hq, rfl⟩ := List.mem_map.mp hp
        exact hsibk q (List.mem_append.mpr (Or.inr hq)))
      (fun p hp => by
        rcases List.mem_append.mp hp with hp | hp
        · obtain ⟨q, hq, rfl⟩ := List.mem_map.mp hp
          exact hcf q (List.mem_append.mpr (Or.inl hq))
        · obtain ⟨q, hq, rfl⟩ := List.mem_map.mp hp
          exact hcf q (List.mem_append.mpr (Or.inr hq)))
      hab]
  dsimp only
  rw [List.map_cons, List.map_nil]
  dsimp only
  rw [setKV]
  rw [if_pos (by rw [hasKeyB]; simp)]
  rw [List.map_cons, List.map_nil]
  rw [replaceEntry, if_pos rfl]

theorem processLines_cons_pass {line : Str} {inC : Bool}
    (h1 : subB (S "\"conf-start::") line = false)
    (h2 : subB (S "\"conf-mid::") line = false)
    (h3 : subB (S "\"conf-end::") line = false)
    (h4 : (inC && prefB (S "\"tmpl::") (trimS line)) = false)
    (h5 : (inC && prefB (S "\"curr::") (trimS line)) = false)
    (rest : List Str) :
    processLines inC (line :: rest) = line :: processLines inC rest := by
  simp only [processLines]
  rw [h1, h2, h3, h4, h5]
  simp

theorem processLines_cons_start {line : Str} (inC : Bool)
    (h1 : subB (S "\"conf-start::") line = true) (rest : List Str) :
    processLines inC (line :: rest) = S "<<<<<<< Local Package" :: processLines true rest := by
  simp only [processLines]
  rw [h1]
  simp

theorem processLines_cons_mid {line : Str} (inC : Bool)
    (h1 : subB (S "\"conf-start::") line = false)
    (h2 : subB (S "\"conf-mid::") line = true) (rest : List Str) :
    processLines inC (line :: rest) = S "=======" :: processLines inC rest := by
  simp only [processLines]
  rw [h1, h2]
  simp

theorem processLines_cons_end {line : Str} (inC : Bool)
    (h1 : subB (S "\"conf-start::") line = false)
    (h2 : subB (S "\"conf-mid::") line = false)
    (h3 : subB (S "\"conf-end::") line = true) (rest : List Str) :
    processLines inC (line :: rest) = S ">>>>>>> Template" :: processLines false rest := by
  simp only [processLines]
  rw [h1, h2, h3]
  simp

theorem processLines_cons_tmpl {line : Str}
    (h1 : subB (S "\"conf-start::") line = false)
    (h2 : subB (S "\"conf-mid::") line = false)
    (h3 : subB (S "\"conf-end::") line = false)
    (h4 : prefB (S "\"tmpl::") (trimS line) = true) (rest : List Str) :
    processLines true (line :: rest) =
      (removeLastComma (replaceMarkerKey (S "tmpl::") line) ++
        (if (findNextNonConflictLine rest).elim false (fun t => prefB ['"'] t) then [','] else []) ++
        S " // From template") :: processLines true rest := by
  simp only [processLines]
  rw [h1, h2, h3, h4]
  simp

theorem processLines_cons_curr {line : Str}
    (h1 : subB (S "\"conf-start::") line = false)
    (h2 : subB (S "\"conf-mid::") line = false)
    (h3 : subB (S "\"conf-end::") line = false)
    (h4 : prefB (S "\"tmpl::") (trimS line) = false)
    (h5 : prefB (S "\"curr::") (trimS line) = true) (rest : List Str) :
    processLines true (line :: rest) =
      (removeLastComma (replaceMarkerKey (S "curr::") line) ++
        (if (findNextNonConflictLine rest).elim false (fun t => prefB ['"'] t) then [','] else [])) ::
        processLines true rest := by
  simp only [processLines]
  rw [h1, h2, h3, h4, h5]
  simp

theorem findNext_cons_notReal {l : Str} (h : isRealLine (trimS l) = false) (rest : List Str) :
    findNextNonConflictLine (l :: rest) = findNextNonConflictLine rest := by
  simp only [findNextNonConflictLine]
  rw [h]
  simp

theorem colonFree_quote_plain {s : Str} (h : allPlain s) :
    colonFree ('"' :: s ++ ['"']) := by
  intro c hc
  rcases List.mem_cons.mp hc with hc | hc
  · rw [hc]; decide
  · rcases List.mem_append.mp hc with hc | hc
    · exact plain_ne_of_not_plain (h c hc) (by decide)
    · rw [List.mem_singleton.mp hc]; decide

theorem hasAdjColon_sibLineC {p : Str × Str} (h1 : allPlain p.1) (h2 : allPlain p.2) :
    hasAdjColon (sibLineC p) = false := by
  rw [show sibLineC p = (sp 4 ++ quoteStr p.1) ++ ':' :: (' ' :: (quoteStr p.2 ++ [','])) from by
    unfold sibLineC rawSib; simp]
  have hx : colonFree (sp 4 ++ quoteStr p.1) := by
    rw [quoteStr_plain h1]
    intro c hc
    rcases List.mem_append.mp hc with hc | hc
    · rw [List.eq_of_mem_replicate hc]; decide
    · exact colonFree_quote_plain h1 c hc
  rw [hasAdjColon_cf_append hx]
  have hy : ∀ hne : (' ' :: (quoteStr p.2 ++ [','])) ≠ [],
      (' ' :: (quoteStr p.2 ++ [','])).head hne ≠ ':' := fun hne => by
    show (' ' : Char) ≠ ':'
    decide
  rw [hasAdjColon_colon_cons hy]
  refine hasAdjColon_of_colonFree ?_
  intro c hc
  rcases List.mem_cons.mp hc with hc | hc
  · rw [hc]; decide
  · rcases List.mem_append.mp hc with hc | hc
    · exact colonFree_quote_plain h2 c (by rw [quoteStr_plain h2] at hc; exact hc)
    · rw [List.mem_singleton.mp hc]; decide

theorem subB_marker_sibLineC {p : Str × Str} (h1 : allPlain p.1) (h2 : allPlain p.2)
    {pat : Str} (hcc : subB (S "::") pat = true) : subB pat (sibLineC p) = false :=
  not_subB_of_no_adjColon (hasAdjColon_sibLineC h1 h2) hcc

theorem processLines_sibs (sibs : List (Str × Str))
    (hplain : ∀ p ∈ sibs, allPlain p.1 ∧ allPlain p.2) (rest : List Str) :
    processLines false (sibs.map sibLineC ++ rest) =
      sibs.map sibLineC ++ processLines false rest := by
  induction sibs with
  | nil => rfl
  | cons p sibs ih =>
      rw [List.map_cons, List.cons_append]
      have hp := hplain p (List.mem_cons_self _ _)
      rw [processLines_cons_pass
        (subB_marker_sibLineC hp.1 hp.2 (by decide))
        (subB_marker_sibLineC hp.1 hp.2 (by decide))
        (subB_marker_sibLineC hp.1 hp.2 (by decide))
        (Bool.false_and _) (Bool.false_and _)]
      rw [ih (fun q hq => hplain q (List.mem_cons_of_mem _ hq))]
      rfl

theorem quoteStr_tag_plain {k : Str} (hk : allPlain k) {tag : Str}
    (htag : escapeStr tag = tag) :
    quoteStr (tag ++ k) = '"' :: (tag ++ k) ++ ['"'] := by
  unfold quoteStr
  rw [escapeStr_append, htag, escapeStr_plain hk]

/-- A serialized `"TAGKEY": "VALUE"` line at indent 4, followed by the tail
`E` (the member comma, or nothing): the four-quote normal form. -/
def valNest (B D E : Str) : Str :=
  sp 4 ++ '"' :: (B ++ '"' :: (':' :: ' ' :: '"' :: (D ++ '"' :: E)))

theorem rawSibTag_comma_eq_valNest {k v : Str} (hk : allPlain k) (hv : allPlain v)
    {tag : Str} (htag : escapeStr tag = tag) :
    (sp 4 ++ quoteStr (tag ++ k) ++ ':' :: ' ' :: quoteStr v) ++ [','] =
      valNest (tag ++ k) v [','] := by
  rw [quoteStr_tag_plain hk htag, quoteStr_plain hv]
  unfold valNest
  simp

theorem prefB_false_of_colon {pt s : Str} (hcol : ':' ∈ pt) (hs : ':' ∉ s) :
    prefB pt s = false := by
  cases h : prefB pt s with
  | false => rfl
  | true => exact absurd (mem_of_prefB h ':' hcol) hs

theorem subB_quotepat_valNest_false {B v E : Str} (hB : '"' ∉ B) (hv : '"' ∉ v)
    (hE : '"' ∉ E) {pt : Str}
    (hpt1 : prefB pt (B ++ '"' :: ([':', ' '] ++ '"' :: (v ++ '"' :: E))) = false)
    (hpt2 : prefB pt ([':', ' '] ++ '"' :: (v ++ '"' :: E)) = false)
    (hpt3 : prefB pt (v ++ '"' :: E) = false)
    (hpt4 : prefB pt E = false) :
    subB ('"' :: pt) (valNest B v E) = false := by
  cases hs : subB ('"' :: pt) (valNest B v E) with
  | false => rfl
  | true =>
      have hsp : '"' ∉ sp 4 := by decide
      have hs2 : subB ('"' :: pt)
          (sp 4 ++ '"' :: (B ++ '"' :: ([':', ' '] ++ '"' :: (v ++ '"' :: E)))) = true := hs
      rcases @valLine_tails (sp 4) B [':', ' '] v E hsp hB (by decide) hv hE pt hs2
        with h | h | h | h
      · rw [h] at hpt1; exact Bool.noConfusion hpt1
      · rw [h] at hpt2; exact Bool.noConfusion hpt2
      · rw [h] at hpt3; exact Bool.noConfusion hpt3
      · rw [h] at hpt4; exact Bool.noConfusion hpt4

theorem colon_not_mem_vquote {v : Str} (hv : allPlain v) (E : Str) (hE : ':' ∉ E) :
    ':' ∉ v ++ '"' :: E := by
  intro hm
  rcases List.mem_append.mp hm with hm | hm
  · exact absurd hm (not_mem_of_allPlain hv (by decide))
  · rcases List.mem_cons.mp hm with hm | hm
    · exact absurd hm (by decide)
    · exact hE hm

theorem subB_conf_valNest_comma {B v : Str} (hB : '"' ∉ B) (hv : allPlain v)
    {pt : Str} (hcol : ':' ∈ pt)
    (hpt1 : prefB pt (B ++ '"' :: ([':', ' '] ++ '"' :: (v ++ '"' :: [',']))) = false)
    (hpt2 : prefB pt ([':', ' '] ++ '"' :: (v ++ '"' :: [','])) = false)
    (hpt4 : prefB pt [','] = false) :
    subB ('"' :: pt) (valNest B v [',']) = false :=
  subB_quotepat_valNest_false hB (not_mem_of_allPlain hv (by decide)) (by decide)
    hpt1 hpt2 (prefB_false_of_colon hcol (colon_not_mem_vquote hv [','] (by decide))) hpt4

theorem trimS_valNest_comma (B v : Str) :
    trimS (valNest B v [',']) =
      ('"' :: (B ++ '"' :: (':' :: ' ' :: '"' :: (v ++ ['"'])))) ++ [','] := by
  rw [show valNest B v [','] =
      sp 4 ++ '"' :: (B ++ '"' :: (':' :: ' ' :: '"' :: (v ++ ['"']))) ++ [','] from by
    unfold valNest; simp]
  exact trimS_sp_quote_comma _

theorem prefB_tag_trimmed (tag R : Str) :
    prefB ('"' :: tag) (('"' :: (tag ++ R)) ++ [',']) = true := by
  rw [show ('"' :: (tag ++ R)) ++ [','] = ('"' :: tag) ++ (R ++ [',']) from by simp]
  exact prefB_append_self _ _

theorem isRealLine_tmpl_false {t : Str} (h : prefB (S "\"tmpl::") t = true) :
    isRealLine t = false := by
  unfold isRealLine
  rw [h]
  simp

theorem processed_valNest {k : Str} (hk : allPlain k) (hkne : k ≠ []) (tag v' : Str) :
    removeLastComma (replaceMarkerKey tag (valNest (tag ++ k) v' [','])) =
      outValLine k v' := by
  rw [show valNest (tag ++ k) v' [','] =
      sp 4 ++ ('"' :: (tag ++ (k ++ '"' :: (':' :: ' ' :: '"' :: (v' ++ ['"', ','])))))
      from by unfold valNest; simp]
  rw [replaceMarkerKey_skip (by decide : ('"' : Char) ∉ sp 4)]
  rw [replaceMarkerKey_at_quote hkne (not_mem_of_allPlain hk (by decide))]
  rw [show sp 4 ++ (('"' :: k) ++ '"' :: (':' :: ' ' :: '"' :: (v' ++ ['"', ',']))) =
      (sp 4 ++ '"' :: k ++ '"' :: ':' :: ' ' :: '"' :: v' ++ ['"']) ++ [','] from by simp]
  rw [removeLastComma_append_comma]
  rfl

theorem quote_not_mem_tagkey {k : Str} (hk : allPlain k) {tag : Str}
    (htq : ('"' : Char) ∉ tag) : ('"' : Char) ∉ tag ++ k := by
  intro hm
  rcases List.mem_append.mp hm with hm | hm
  · exact htq hm
  · exact not_mem_of_allPlain hk (by decide) hm

theorem prefB_tmpl_trim_curr (k a : Str) :
    prefB (S "\"tmpl::") (trimS (valNest (S "curr::" ++ k) a [','])) = false := by
  rw [trimS_valNest_comma]
  rfl

theorem prefB_curr_trim_curr (k a : Str) :
    prefB (S "\"curr::") (trimS (valNest (S "curr::" ++ k) a [','])) = true := by
  rw [trimS_valNest_comma]
  rw [show (S "curr::" ++ k) ++ '"' :: (':' :: ' ' :: '"' :: (a ++ ['"'])) =
      S "curr::" ++ (k ++ '"' :: (':' :: ' ' :: '"' :: (a ++ ['"']))) from by simp]
  exact prefB_tag_trimmed (S "curr::") _

theorem prefB_tmpl_trim_tmpl (k b : Str) :
    prefB (S "\"tmpl::") (trimS (valNest (S "tmpl::" ++ k) b [','])) = true := by
  rw [trimS_valNest_comma]
  rw [show (S "tmpl::" ++ k) ++ '"' :: (':' :: ' ' :: '"' :: (b ++ ['"'])) =
      S "tmpl::" ++ (k ++ '"' :: (':' :: ' ' :: '"' :: (b ++ ['"']))) from by simp]
  exact prefB_tag_trimmed (S "tmpl::") _

theorem findNext_tail_close (k b : Str) :
    findNextNonConflictLine
      [S "    \"conf-mid::00\": \"\",", valNest (S "tmpl::" ++ k) b [','],
       S "    \"conf-end::00\": \"\"", S "  \x7d", S "\x7d"] = some (S "\x7d") := by
  rw [findNext_cons_notReal (by decide)]
  rw [findNext_cons_notReal (isRealLine_tmpl_false (prefB_tmpl_trim_tmpl k b))]
  rw [findNext_cons_notReal (by decide)]
  decide

theorem findNext_tail_close2 :
    findNextNonConflictLine [S "    \"conf-end::00\": \"\"", S "  \x7d", S "\x7d"] =
      some (S "\x7d") := by
  rw [findNext_cons_notReal (by decide)]
  decide

theorem subB_conf_currLine {k a : Str} (hk : allPlain k) (ha : allPlain a)
    {pt : Str} (hcol : ':' ∈ pt)
    (hpt1 : prefB pt ((S "curr::" ++ k) ++ '"' :: ([':', ' '] ++ '"' :: (a ++ '"' :: [',']))) = false)
    (hpt2 : prefB pt ([':', ' '] ++ '"' :: (a ++ '"' :: [','])) = false)
    (hpt4 : prefB pt [','] = false) :
    subB ('"' :: pt) (valNest (S "curr::" ++ k) a [',']) = false :=
  subB_conf_valNest_comma (quote_not_mem_tagkey hk (by decide)) ha hcol hpt1 hpt2 hpt4

theorem subB_conf_tmplLine {k b : Str} (hk : allPlain k) (hb : allPlain b)
    {pt : Str} (hcol : ':' ∈ pt)
    (hpt1 : prefB pt ((S "tmpl::" ++ k) ++ '"' :: ([':', ' '] ++ '"' :: (b ++ '"' :: [',']))) = false)
    (hpt2 : prefB pt ([':', ' '] ++ '"' :: (b ++ '"' :: [','])) = false)
    (hpt4 : prefB pt [','] = false) :
    subB ('"' :: pt) (valNest (S "tmpl::" ++ k) b [',']) = false :=
  subB_conf_valNest_comma (quote_not_mem_tagkey hk (by decide)) hb hcol hpt1 hpt2 hpt4

theorem processLines_conflict_block (sibs : List (Str × Str)) (k a b : Str)
    (hk : allPlain k) (hkne : k ≠ []) (ha : allPlain a) (hb : allPlain b)
    (hplain : ∀ p ∈ sibs, allPlain p.1 ∧ allPlain p.2) :
    processLines false
      ([S "\x7b", S "  \"scripts\": \x7b"] ++ sibs.map sibLineC ++
        [S "    \"conf-start::00\": \"\",", valNest (S "curr::" ++ k) a [','],
         S "    \"conf-mid::00\": \"\",", valNest (S "tmpl::" ++ k) b [','],
         S "    \"conf-end::00\": \"\"", S "  \x7d", S "\x7d"]) =
      renderOut sibs k a b := by
  rw [show ([S "\x7b", S "  \"scripts\": \x7b"] ++ sibs.map sibLineC ++
      [S "    \"conf-start::00\": \"\",", valNest (S "curr::" ++ k) a [','],
       S "    \"conf-mid::00\": \"\",", valNest (S "tmpl::" ++ k) b [','],
       S "    \"conf-end::00\": \"\"", S "  \x7d", S "\x7d"]) =
      S "\x7b" :: S "  \"scripts\": \x7b" :: (sibs.map sibLineC ++
      [S "    \"conf-start::00\": \"\",", valNest (S "curr::" ++ k) a [','],
       S "    \"conf-mid::00\": \"\",", valNest (S "tmpl::" ++ k) b [','],
       S "    \"conf-end::00\": \"\"", S "  \x7d", S "\x7d"]) from by simp]
  rw [processLines_cons_pass (by decide) (by decide) (by decide)
    (Bool.false_and _) (Bool.false_and _)]
  rw [processLines_cons_pass (by decide) (by decide) (by decide)
    (Bool.false_and _) (Bool.false_and _)]
  rw [processLines_sibs sibs hplain]
  rw [processLines_cons_start _ (by decide)]
  rw [processLines_cons_curr
    (subB_conf_currLine hk ha (by decide) rfl rfl rfl)
    (subB_conf_currLine hk ha (by decide) rfl rfl rfl)
    (subB_conf_currLine hk ha (by decide) rfl rfl rfl)
    (prefB_tmpl_trim_curr k a)
    (prefB_curr_trim_curr k a)]
  rw [findNext_tail_close k b]
  rw [processed_valNest hk hkne]
  rw [processLines_cons_mid _ (by decide) (by decide)]
  rw [processLines_cons_tmpl
    (subB_conf_tmplLine hk hb (by decide) rfl rfl rfl)
    (subB_conf_tmplLine hk hb (by decide) rfl rfl rfl)
    (subB_conf_tmplLine hk hb (by decide) rfl rfl rfl)
    (prefB_tmpl_trim_tmpl k b)]
  rw [findNext_tail_close2]
  rw [processed_valNest hk hkne]
  rw [processLines_cons_end _ (by decide) (by decide) (by decide)]
  rw [show processLines false [S "  \x7d", S "\x7d"] = [S "  \x7d", S "\x7d"] from by decide]
  unfold renderOut
  simp
  decide

theorem nl_not_mem_sibLineC {p : Str × Str} (h1 : allPlain p.1) (h2 : allPlain p.2) :
    ('\n' : Char) ∉ sibLineC p := by
  intro hm
  unfold sibLineC rawSib at hm
  rw [quoteStr_plain h1, quoteStr_plain h2] at hm
  simp [sp, List.mem_replicate] at hm
  rcases hm with hm | hm
  · exact absurd hm (not_mem_of_allPlain h1 (by decide))
  · exact absurd hm (not_mem_of_allPlain h2 (by decide))

theorem nl_not_mem_valNest {B v E : Str} (hB : ('\n' : Char) ∉ B) (hv : allPlain v)
    (hE : ('\n' : Char) ∉ E) : ('\n' : Char) ∉ valNest B v E := by
  intro hm
  unfold valNest at hm
  simp [sp, List.mem_replicate] at hm
  rcases hm with hm | hm | hm
  · exact hB hm
  · exact absurd hm (not_mem_of_allPlain hv (by decide))
  · exact hE hm

theorem nl_not_mem_tagkey {k : Str} (hk : allPlain k) {tag : Str}
    (htag : ('\n' : Char) ∉ tag) : ('\n' : Char) ∉ tag ++ k := by
  intro hm
  rcases List.mem_append.mp hm with hm | hm
  · exact htag hm
  · exact absurd hm (not_mem_of_allPlain hk (by decide))

theorem commaAll_memberLines (sibs : List (Str × Str)) {k a b : Str}
    (hk : allPlain k) (ha : allPlain a) (hb : allPlain b) :
    commaAll (stringifyPObj 4 (sibs.map strEntry ++
        markerBlock 0 k (JsonValue.str a) (JsonValue.str b))) =
      sibs.map sibLineC ++
      [S "    \"conf-start::00\": \"\",", valNest (S "curr::" ++ k) a [','],
       S "    \"conf-mid::00\": \"\",", valNest (S "tmpl::" ++ k) b [','],
       S "    \"conf-end::00\": \"\""] := by
  rw [stringifyPObj_append]
  rw [stringifyPObj_map_strEntry]
  rw [stringifyPObj_markerBlock]
  rw [commaAll_append (by simp)]
  rw [List.map_map]
  rw [show commaAll [S "    \"conf-start::00\": \"\"",
      sp 4 ++ quoteStr (S "curr::" ++ k) ++ ':' :: ' ' :: quoteStr a,
      S "    \"conf-mid::00\": \"\"",
      sp 4 ++ quoteStr (S "tmpl::" ++ k) ++ ':' :: ' ' :: quoteStr b,
      S "    \"conf-end::00\": \"\""] =
      [S "    \"conf-start::00\": \"\"" ++ [','],
       (sp 4 ++ quoteStr (S "curr::" ++ k) ++ ':' :: ' ' :: quoteStr a) ++ [','],
       S "    \"conf-mid::00\": \"\"" ++ [','],
       (sp 4 ++ quoteStr (S "tmpl::" ++ k) ++ ':' :: ' ' :: quoteStr b) ++ [','],
       S "    \"conf-end::00\": \"\""] from by
    rw [commaAll, commaAll, commaAll, commaAll, commaAll]]
  rw [rawSibTag_comma_eq_valNest hk ha (by decide : escapeStr (S "curr::") = S "curr::")]
  rw [rawSibTag_comma_eq_valNest hk hb (by decide : escapeStr (S "tmpl::") = S "tmpl::")]
  rw [show S "    \"conf-start::00\": \"\"" ++ [','] = S "    \"conf-start::00\": \"\"," from by decide]
  rw [show S "    \"conf-mid::00\": \"\"" ++ [','] = S "    \"conf-mid::00\": \"\"," from by decide]
  rfl

theorem hasValueChanged_str_ne {a b : Str} (ha : allPlain a) (hb : allPlain b)
    (hab : a ≠ b) :
    hasValueChanged (some (JsonValue.str a)) (some (JsonValue.str b)) = true := by
  apply decide_eq_true
  intro h
  simp only [jsonStringifyTop] at h
  rw [show stringifyC (JsonValue.str a) = quoteStr a from rfl,
      show stringifyC (JsonValue.str b) = quoteStr b from rfl] at h
  rw [quoteStr_plain ha, quoteStr_plain hb] at h
  injection h with h
  injection h with h1 h2
  apply hab
  have := congrArg List.reverse h2
  simp at this
  exact this

theorem docLines_nlfree (sibs : List (Str × Str)) {k a b : Str}
    (hk : allPlain k) (ha : allPlain a) (hb : allPlain b)
    (hplain : ∀ p ∈ sibs, allPlain p.1 ∧ allPlain p.2) :
    ∀ l ∈ ([S "\x7b", S "  \"scripts\": \x7b"] ++ sibs.map sibLineC ++
      [S "    \"conf-start::00\": \"\",", valNest (S "curr::" ++ k) a [','],
       S "    \"conf-mid::00\": \"\",", valNest (S "tmpl::" ++ k) b [','],
       S "    \"conf-end::00\": \"\"", S "  \x7d", S "\x7d"]), ('\n' : Char) ∉ l := by
  intro l hl
  rcases List.mem_append.mp hl with hl | hl
  · rcases List.mem_append.mp hl with hl | hl
    · rcases List.mem_cons.mp hl with hl | hl
      · subst hl; decide
      · rw [List.mem_singleton.mp hl]; decide
    · obtain ⟨p, hp, rfl⟩ := List.mem_map.mp hl
      exact nl_not_mem_sibLineC (hplain p hp).1 (hplain p hp).2
  · rcases List.mem_cons.mp hl with hl | hl
    · subst hl; decide
    rcases List.mem_cons.mp hl with hl | hl
    · subst hl; exact nl_not_mem_valNest (nl_not_mem_tagkey hk (by decide)) ha (by decide)
    rcases List.mem_cons.mp hl with hl | hl
    · subst hl; decide
    rcases List.mem_cons.mp hl with hl | hl
    · subst hl; exact nl_not_mem_valNest (nl_not_mem_tagkey hk (by decide)) hb (by decide)
    rcases List.mem_cons.mp hl with hl | hl
    · subst hl; decide
    rcases List.mem_cons.mp hl with hl | hl
    · subst hl; decide
    · rw [List.mem_singleton.mp hl]; decide

theorem mergeRender_single_conflict (subPre subPost : List (Str × Str)) (k a b : Str)
    (hk : allPlain k) (hkne : k ≠ []) (ha : allPlain a) (hb : allPlain b) (hab : a ≠ b)
    (hsib : ∀ p ∈ subPre ++ subPost, allPlain p.1 ∧ allPlain p.2)
    (hsibk : ∀ p ∈ subPre ++ subPost, p.1 ≠ k) :
    mergePackageJsonDocs
        [(S "scripts", JsonValue.obj (subPre.map strEntry ++ (k, JsonValue.str a) :: subPost.map strEntry))]
        [(S "scripts", JsonValue.obj [(k, JsonValue.str b)])] =
      joinNl (renderOut (subPre ++ subPost) k a b) := by
  unfold mergePackageJsonDocs
  rw [mergeDocs_single_conflict subPre subPost k a b hsibk
    (fun p hp => plain_colonFree (hsib p hp).1) (hasValueChanged_str_ne ha hb hab)]
  rw [show dropUndefined [(S "scripts", some (JsonValue.obj ((subPre.map strEntry ++ subPost.map strEntry) ++
      markerBlock 0 k (JsonValue.str a) (JsonValue.str b))))] =
      [(S "scripts", JsonValue.obj ((subPre.map strEntry ++ subPost.map strEntry) ++
      markerBlock 0 k (JsonValue.str a) (JsonValue.str b)))] from rfl]
  rw [stringify_doc (by simp [markerBlock])]
  rw [show subPre.map strEntry ++ subPost.map strEntry = (subPre ++ subPost).map strEntry from
    (List.map_append _ _ _).symm]
  rw [commaAll_memberLines (subPre ++ subPost) hk ha hb]
  unfold transformToGitConflicts
  rw [show ([S "\x7b", S "  \"scripts\": \x7b"] ++ ((subPre ++ subPost).map sibLineC ++
      [S "    \"conf-start::00\": \"\",", valNest (S "curr::" ++ k) a [','],
       S "    \"conf-mid::00\": \"\",", valNest (S "tmpl::" ++ k) b [','],
       S "    \"conf-end::00\": \"\""]) ++ [S "  \x7d", S "\x7d"]) =
      ([S "\x7b", S "  \"scripts\": \x7b"] ++ (subPre ++ subPost).map sibLineC ++
      [S "    \"conf-start::00\": \"\",", valNest (S "curr::" ++ k) a [','],
       S "    \"conf-mid::00\": \"\",", valNest (S "tmpl::" ++ k) b [','],
       S "    \"conf-end::00\": \"\"", S "  \x7d", S "\x7d"]) from by simp]
  rw [splitOnC_joinNl (by simp) (docLines_nlfree (subPre ++ subPost) hk ha hb hsib)]
  rw [processLines_conflict_block (subPre ++ subPost) k a b hk hkne ha hb hsib]

theorem countP_map_zero {α : Type} {β : Type} (f : β → Bool) (g : α → β) (l : List α)
    (h : ∀ x ∈ l, f (g x) = false) : (l.map g).countP f = 0 := by
  induction l with
  | nil => rfl
  | cons x l ih =>
      rw [List.map_cons, List.countP_cons, ih (fun y hy => h y (List.mem_cons_of_mem _ hy))]
      rw [h x (List.mem_cons_self _ _)]
      simp

theorem renderOut_count_start (sibs : List (Str × Str)) (k a b : Str) :
    (renderOut sibs k a b).countP (fun l => prefB (S "<<<<<<< Local Package") l) = 1 := by
  unfold renderOut
  rw [List.countP_append, List.countP_append]
  rw [show List.countP (fun l => prefB (S "<<<<<<< Local Package") l)
      [S "\x7b", S "  \"scripts\": \x7b"] = 0 from by decide]
  rw [countP_map_zero _ _ _ (fun p _ => rfl)]
  rw [List.countP_cons, List.countP_cons, List.countP_cons, List.countP_cons,
    List.countP_cons, List.countP_cons, List.countP_cons, List.countP_nil]
  rw [show prefB (S "<<<<<<< Local Package") (outValLine k a) = false from rfl]
  rw [show prefB (S "<<<<<<< Local Package")
      (outValLine k b ++ S " // From template") = false from rfl]
  decide

theorem renderOut_count_mid (sibs : List (Str × Str)) (k a b : Str) :
    (renderOut sibs k a b).countP (fun l => prefB (S "=======") l) = 1 := by
  unfold renderOut
  rw [List.countP_append, List.countP_append]
  rw [show List.countP (fun l => prefB (S "=======") l)
      [S "\x7b", S "  \"scripts\": \x7b"] = 0 from by decide]
  rw [countP_map_zero _ _ _ (fun p _ => rfl)]
  rw [List.countP_cons, List.countP_cons, List.countP_cons, List.countP_cons,
    List.countP_cons, List.countP_cons, List.countP_cons, List.countP_nil]
  rw [show prefB (S "=======") (outValLine k a) = false from rfl]
  rw [show prefB (S "=======")
      (outValLine k b ++ S " // From template") = false from rfl]
  decide

theorem renderOut_count_end (sibs : List (Str × Str)) (k a b : Str) :
    (renderOut sibs k a b).countP (fun l => prefB (S ">>>>>>> Template") l) = 1 := by
  unfold renderOut
  rw [List.countP_append, List.countP_append]
  rw [show List.countP (fun l => prefB (S ">>>>>>> Template") l)
      [S "\x7b", S "  \"scripts\": \x7b"] = 0 from by decide]
  rw [countP_map_zero _ _ _ (fun p _ => rfl)]
  rw [List.countP_cons, List.countP_cons, List.countP_cons, List.countP_cons,
    List.countP_cons, List.countP_cons, List.countP_cons, List.countP_nil]
  rw [show prefB (S ">>>>>>> Template") (outValLine k a) = false from rfl]
  rw [show prefB (S ">>>>>>> Template")
      (outValLine k b ++ S " // From template") = false from rfl]
  decide

theorem nl_not_mem_outValLine {k v : Str} (hk : allPlain k) (hv : allPlain v) :
    ('\n' : Char) ∉ outValLine k v := by
  intro hm
  unfold outValLine at hm
  simp [sp, List.mem_replicate] at hm
  rcases hm with hm | hm
  · exact absurd hm (not_mem_of_allPlain hk (by decide))
  · exact absurd hm (not_mem_of_allPlain hv (by decide))

theorem renderOut_nlfree (sibs : List (Str × Str)) {k a b : Str}
    (hk : allPlain k) (ha : allPlain a) (hb : allPlain b)
    (hplain : ∀ p ∈ sibs, allPlain p.1 ∧ allPlain p.2) :
    ∀ l ∈ renderOut sibs k a b, ('\n' : Char) ∉ l := by
  intro l hl
  unfold renderOut at hl
  rcases List.mem_append.mp hl with hl | hl
  · rcases List.mem_append.mp hl with hl | hl
    · rcases List.mem_cons.mp hl with hl | hl
      · subst hl; decide
      · rw [List.mem_singleton.mp hl]; decide
    · obtain ⟨p, hp, rfl⟩ := List.mem_map.mp hl
      exact nl_not_mem_sibLineC (hplain p hp).1 (hplain p hp).2
  · rcases List.mem_cons.mp hl with hl | hl
    · subst hl; decide
    rcases List.mem_cons.mp hl with hl | hl
    · subst hl; exact nl_not_mem_outValLine hk ha
    rcases List.mem_cons.mp hl with hl | hl
    · subst hl; decide
    rcases List.mem_cons.mp hl with hl | hl
    · subst hl
      intro hm
      rcases List.mem_append.mp hm with hm | hm
      · exact nl_not_mem_outValLine hk hb hm
      · revert hm; decide
    rcases List.mem_cons.mp hl with hl | hl
    · subst hl; decide
    rcases List.mem_cons.mp hl with hl | hl
    · subst hl; decide
    · rw [List.mem_singleton.mp hl]; decide

/-- C5 (amended): for a merge with exactly one divergent merge-candidate
sub-key whose current and incoming values are plain single-line strings,
rendering the marker-annotated serialization produces exactly one
local/template delimiter pair; the local branch holds the original current
value under the original key name with no trailing comma, the template
branch holds the original incoming value annotated as from-template, and
the unchanged sibling entries keep correct member commas.  However the
conflict block is always rendered after all sibling lines (the divergent
key's position is not preserved), and the clean-branch guarantee is
restricted to single-line values: multi-line (object or array) values are
corrupted in the rendered branches (see the counterexample). -/
theorem render_single_conflict (subPre subPost : List (Str × Str)) (k a b : Str)
    (hk : allPlain k) (hkne : k ≠ []) (ha : allPlain a) (hb : allPlain b) (hab : a ≠ b)
    (hsib : ∀ p ∈ subPre ++ subPost, allPlain p.1 ∧ allPlain p.2)
    (hsibk : ∀ p ∈ subPre ++ subPost, p.1 ≠ k) :
    mergePackageJsonDocs
        [(S "scripts", JsonValue.obj (subPre.map strEntry ++ (k, JsonValue.str a) :: subPost.map strEntry))]
        [(S "scripts", JsonValue.obj [(k, JsonValue.str b)])] =
      joinNl (renderOut (subPre ++ subPost) k a b) ∧
    (splitOnC '\n' (mergePackageJsonDocs
        [(S "scripts", JsonValue.obj (subPre.map strEntry ++ (k, JsonValue.str a) :: subPost.map strEntry))]
        [(S "scripts", JsonValue.obj [(k, JsonValue.str b)])])).countP
      (fun l => prefB (S "<<<<<<< Local Package") l) = 1 ∧
    (splitOnC '\n' (mergePackageJsonDocs
        [(S "scripts", JsonValue.obj (subPre.map strEntry ++ (k, JsonValue.str a) :: subPost.map strEntry))]
        [(S "scripts", JsonValue.obj [(k, JsonValue.str b)])])).countP
      (fun l => prefB (S "=======") l) = 1 ∧
    (splitOnC '\n' (mergePackageJsonDocs
        [(S "scripts", JsonValue.obj (subPre.map strEntry ++ (k, JsonValue.str a) :: subPost.map strEntry))]
        [(S "scripts", JsonValue.obj [(k, JsonValue.str b)])])).countP
      (fun l => prefB (S ">>>>>>> Template") l) = 1 := by
  have h1 := mergeRender_single_conflict subPre subPost k a b hk hkne ha hb hab hsib hsibk
  refine ⟨h1, ?_, ?_, ?_⟩ <;>
    rw [h1, splitOnC_joinNl (by simp [renderOut]) (renderOut_nlfree _ hk ha hb hsib)]
  · exact renderOut_count_start _ k a b
  · exact renderOut_count_mid _ k a b
  · exact renderOut_count_end _ k a b

/-- Witness for C5: a three-sibling scripts object whose middle key `dev`
diverges from `"a1"` to `"b2"`: the render equals the expected conflict
markup and has exactly one delimiter pair. -/
theorem render_single_conflict_witness :
    mergePackageJsonDocs
        [(S "scripts", JsonValue.obj ([(S "build", S "x1")].map strEntry ++
          (S "dev", JsonValue.str (S "a1")) :: [(S "test", S "y1")].map strEntry))]
        [(S "scripts", JsonValue.obj [(S "dev", JsonValue.str (S "b2"))])] =
      joinNl (renderOut ([(S "build", S "x1")] ++ [(S "test", S "y1")])
        (S "dev") (S "a1") (S "b2")) ∧
    (splitOnC '\n' (mergePackageJsonDocs
        [(S "scripts", JsonValue.obj ([(S "build", S "x1")].map strEntry ++
          (S "dev", JsonValue.str (S "a1")) :: [(S "test", S "y1")].map strEntry))]
        [(S "scripts", JsonValue.obj [(S "dev", JsonValue.str (S "b2"))])])).countP
      (fun l => prefB (S "<<<<<<< Local Package") l) = 1 ∧
    (splitOnC '\n' (mergePackageJsonDocs
        [(S "scripts", JsonValue.obj ([(S "build", S "x1")].map strEntry ++
          (S "dev", JsonValue.str (S "a1")) :: [(S "test", S "y1")].map strEntry))]
        [(S "scripts", JsonValue.obj [(S "dev", JsonValue.str (S "b2"))])])).countP
      (fun l => prefB (S "=======") l) = 1 ∧
    (splitOnC '\n' (mergePackageJsonDocs
        [(S "scripts", JsonValue.obj ([(S "build", S "x1")].map strEntry ++
          (S "dev", JsonValue.str (S "a1")) :: [(S "test", S "y1")].map strEntry))]
        [(S "scripts", JsonValue.obj [(S "dev", JsonValue.str (S "b2"))])])).countP
      (fun l => prefB (S ">>>>>>> Template") l) = 1 :=
  render_single_conflict [(S "build", S "x1")] [(S "test", S "y1")]
    (S "dev") (S "a1") (S "b2") (by decide) (by decide) (by decide) (by decide)
    (by decide) (by decide) (by decide)

/-- C5 counterexample: when the single divergent merge-candidate sub-key
holds OBJECT values, the rendered local and template branches do not hold
the original values: the first line of each branch is the corrupted
`"dev": \x7b,` (the needs-comma look-ahead sees the object's first member
line and appends a comma right after the opening brace), so the branch is
not the serialization of the original value, refuting the claim for
multi-line values. -/
theorem render_object_value_corrupted :
    mergePackageJsonDocs
        [(S "scripts", JsonValue.obj [(S "dev", JsonValue.obj [(S "x", JsonValue.num 1)])])]
        [(S "scripts", JsonValue.obj [(S "dev", JsonValue.obj [(S "x", JsonValue.num 2)])])] =
      S "\x7b\n  \"scripts\": \x7b\n<<<<<<< Local Package\n    \"dev\": \x7b,\n      \"x\": 1\n    \x7d,\n=======\n    \"dev\": \x7b, // From template\n      \"x\": 2\n    \x7d,\n>>>>>>> Template\n  \x7d\n\x7d" ∧
    subB (S "\x7b,")
      (mergePackageJsonDocs
        [(S "scripts", JsonValue.obj [(S "dev", JsonValue.obj [(S "x", JsonValue.num 1)])])]
        [(S "scripts", JsonValue.obj [(S "dev", JsonValue.obj [(S "x", JsonValue.num 2)])])]) = true := by
  constructor
  · decide
  · decide
